import Mathlib

set_option maxHeartbeats 1000000

/-!
Shallow embedding of the Event/EventTarget core bundled in this repository
(the listener registry and dispatch engine in src/unnamed/part_000, an
ES5 build of an event-target shim, lines 1-861).

The embedding is pointer-faithful: the per-event-name registry entry of
`listenersMap` is modelled as a heap of listener nodes (`ListenerNode`,
identified by allocation index) together with an optional head pointer.
Node objects are never deallocated (JavaScript objects stay alive while
referenced), so `heap` only grows and `next` fields are updated in place,
exactly as the source mutates `node.next` / `listeners.set` /
`listeners.delete`.  This makes re-entrant `dispatchEvent` calls from
inside listeners behave exactly as in the source, including the aliasing
of saved `node` references to spliced-out nodes.

Listener callbacks are identified by a `Nat`; their observable behaviour
during an invocation is given by an environment `Env`:
a shape (a plain function, an object with a `handleEvent` method, or an
object without one) and a fixed script of calls they perform on the
event wrapper they receive (`preventDefault`, `stopPropagation`,
`stopImmediatePropagation`, throwing, or re-entering `dispatchEvent`
on the same target and event name).

The wrapper private data (`privateData` in the source) is `PrivateData`;
the raw event is represented by its `cancelable` flag (raw events here
are plain `{type, cancelable}` objects, so the forwarding calls that the
source guards with `typeof data.event.preventDefault === "function"`
etc. have no observable effect and are omitted).  Two ghost observation
channels are added to the state: `log` records every listener invocation
(with the node id, the callback id, and the chain contents immediately
before the call), `diag` records `console.error` reports.
-/

namespace EventShim

/-- Listener type constants from the source: `var CAPTURE = 1`. -/
def CAPTURE : Nat := 1

/-- Listener type constant from the source: `var BUBBLE = 2`. -/
def BUBBLE : Nat := 2

/-- Listener type constant from the source: `var ATTRIBUTE = 3`. -/
def ATTRIBUTE : Nat := 3

/-- The shape of a listener value, deciding which invocation branch of
`dispatchEvent` applies: `typeof listener === "function"`, an object with
a callable `handleEvent`, or an object without one. -/
inductive Shape where
  | func
  | objHandle
  | objNoHandle
deriving DecidableEq

/-- One observable step a listener performs on the wrapper it receives
during its invocation. `throwErr` models the listener body raising an
exception at that point (the rest of its body does not run).
`redispatch` models the listener calling `dispatchEvent` re-entrantly on
the same target with a fresh plain event of the same type (and
`cancelable` absent, hence false). -/
inductive Action where
  | preventDefault
  | stopPropagation
  | stopImmediatePropagation
  | throwErr
  | redispatch
deriving DecidableEq

/-- The fixed behaviour of every callback identity. -/
structure Env where
  beh : Nat → List Action
  shape : Nat → Shape

/-- A `console.error` report. `passivePrevent l` is the
"Unable to preventDefault inside passive event listener invocation."
report (whose second argument is the passive listener `l`);
`listenerError` is the `console.error(err)` in the catch block of
`dispatchEvent`. -/
inductive Diag where
  | passivePrevent (listener : Nat)
  | listenerError
deriving DecidableEq

/-- A node of the singly linked listener chain (`ListenerNode` in the
source docs): the callback identity, the listener type (CAPTURE, BUBBLE
or ATTRIBUTE), the `passive` and `once` flags, and the pointer to the
next node (a heap index) or null. -/
structure ListenerNode where
  listener : Nat
  listenerType : Nat
  passive : Bool
  once : Bool
  next : Option Nat
deriving DecidableEq

/-- Ghost record of one listener invocation: the heap index of the
invoked registration, its callback identity, and the node ids of the
chain (walked from the head) immediately before the call, i.e. after
the once-splice of the current iteration. -/
structure CallRecord where
  node : Nat
  listener : Nat
  chainBefore : List Nat
deriving DecidableEq

/-- The state of one `(target, eventName)` registry entry, plus the two
ghost observation channels. `head = none` models the `Map` having no
entry for the event name (`listeners.get(eventName) == null`); `heap`
holds every node ever allocated, identified by its index. -/
structure DState where
  heap : List ListenerNode
  head : Option Nat
  log : List CallRecord
  diag : List Diag
deriving DecidableEq

/-- A fresh `EventTarget` (`listenersMap.set(this, new Map())`): no
entry for the event name, nothing allocated, nothing observed. -/
def emptyTarget : DState := ⟨[], none, [], []⟩

/-- The private data of one event wrapper (`privateData` entry created
by the `Event$1` constructor), restricted to the fields with observable
behaviour. `cancelable` is `Boolean(event.cancelable)` of the wrapped
raw event (immutable), `hasCurrentTarget` tracks whether `currentTarget`
is still the target (it is nulled when dispatch completes); the
`timeStamp` field is not modelled. -/
structure PrivateData where
  cancelable : Bool
  canceled : Bool
  stopped : Bool
  immediateStopped : Bool
  passiveListener : Option Nat
  eventPhase : Nat
  hasCurrentTarget : Bool
deriving DecidableEq

/-- The private data installed by the `Event$1` constructor:
`eventPhase: 2, currentTarget: eventTarget, canceled: false,
stopped: false, immediateStopped: false, passiveListener: null`. -/
def initPrivateData (cancelable : Bool) : PrivateData :=
  { cancelable := cancelable
    canceled := false
    stopped := false
    immediateStopped := false
    passiveListener := none
    eventPhase := 2
    hasCurrentTarget := true }

/-- Translation of `setCancelFlag` (source lines 54-75): if a passive
listener is active, report to the console and do nothing; otherwise set
`canceled` only when the raw event is cancelable.  (The forwarding call
`data.event.preventDefault()` has no observable effect on a plain raw
event and is omitted.) -/
def setCancelFlag (pd : PrivateData) (g : DState) : PrivateData × DState :=
  match pd.passiveListener with
  | some l => (pd, { g with diag := g.diag ++ [Diag.passivePrevent l] })
  | none =>
    if !pd.cancelable then (pd, g)
    else ({ pd with canceled := true }, g)

/-- The private-data part of `setCancelFlag`, which does not depend on
the registry state. -/
def setCancelFlagPd (pd : PrivateData) : PrivateData :=
  match pd.passiveListener with
  | some _ => pd
  | none =>
    if !pd.cancelable then pd
    else { pd with canceled := true }

/-- Translation of the wrapper method `stopPropagation` (source lines
194-201): sets the `stopped` flag. -/
def stopPropagation (pd : PrivateData) : PrivateData :=
  { pd with stopped := true }

/-- Translation of the wrapper method `stopImmediatePropagation`
(source lines 207-215): sets both `stopped` and `immediateStopped`. -/
def stopImmediatePropagation (pd : PrivateData) : PrivateData :=
  { pd with stopped := true, immediateStopped := true }

/-- Update the `next` pointer of the node at heap index `p`
(the JavaScript assignment `prev.next = ...`). Leaves the heap
unchanged on a dangling index, which never occurs in reachable states. -/
def setNext (heap : List ListenerNode) (p : Nat) (nx : Option Nat) :
    List ListenerNode :=
  match heap[p]? with
  | none => heap
  | some n => heap.set p { n with next := nx }

/-- The splice pattern shared by the three removal sites in the source
(`dispatchEvent` once-removal, the attribute setter, and
`removeEventListener`): unlink the current node `n` given the previous
kept node `prev` —
`if (prev !== null) prev.next = node.next; else if (node.next !== null)
listeners.set(eventName, node.next); else listeners.delete(eventName)`. -/
def spliceOut (g : DState) (prev : Option Nat) (n : ListenerNode) : DState :=
  match prev with
  | some p => { g with heap := setNext g.heap p n.next }
  | none =>
    match n.next with
    | some nx => { g with head := some nx }
    | none => { g with head := none }

/-- Pure walk along `next` pointers collecting node ids, with explicit
fuel (used only as a ghost observation; `chainIds` supplies fuel
sufficient for every acyclic chain). -/
def walkFrom (heap : List ListenerNode) : Nat → Option Nat → List Nat
  | 0, _ => []
  | _ + 1, none => []
  | f + 1, some i =>
    match heap[i]? with
    | none => []
    | some n => i :: walkFrom heap f n.next

/-- The node ids of the current chain, head first. -/
def chainIds (g : DState) : List Nat :=
  walkFrom g.heap g.heap.length g.head

/-- Append an invocation record for the node `nid` (ghost). -/
def pushLog (g : DState) (nid l : Nat) : DState :=
  { g with log := g.log ++ [⟨nid, l, chainIds g⟩] }

/-- Append the catch-block `console.error(err)` report (ghost). -/
def pushErr (g : DState) : DState :=
  { g with diag := g.diag ++ [Diag.listenerError] }

mutual

/-- Run the remaining script of the listener currently being invoked.
Each constructor of `Action` is interpreted by the wrapper method it
calls on the private data of the current dispatch. The result is
`(pd, g, threw)` where `threw` records whether an exception escaped the
listener body (its remaining script does not run). A re-entrant
`dispatchEvent` whose event is not cancelable is performed on the
current registry state; an exception escaping that inner dispatch
escapes this listener body as well. `none` means fuel ran out. -/
def runActions (env : Env) :
    Nat → List Action → PrivateData → DState →
      Option (PrivateData × DState × Bool)
  | 0, _, _, _ => none
  | _ + 1, [], pd, g => some (pd, g, false)
  | f + 1, a :: rest, pd, g =>
    match a with
    | Action.preventDefault =>
      let r := setCancelFlag pd g
      runActions env f rest r.1 r.2
    | Action.stopPropagation =>
      runActions env f rest (stopPropagation pd) g
    | Action.stopImmediatePropagation =>
      runActions env f rest (stopImmediatePropagation pd) g
    | Action.throwErr => some (pd, g, true)
    | Action.redispatch =>
      match dispatchEvent env f false g with
      | none => none
      | some (Except.error _, _, g2) => some (pd, g2, true)
      | some (Except.ok _, _, g2) => runActions env f rest pd g2

/-- The invocation step of one dispatch-loop iteration (source lines
809-830), for the node `n` at heap index `nid`, after the once-splice
produced `g1` and the passive marker produced `pd1`:
a function-shaped listener runs inside try/catch and a raised exception
is reported to the console; an object-shaped listener with `handleEvent`
is invoked without a catch unless its registration is ATTRIBUTE-mode, so
its exception escapes (third component true); other objects are not
invoked. -/
def invoke (env : Env) (f nid : Nat) (n : ListenerNode) (pd1 : PrivateData)
    (g1 : DState) : Option (PrivateData × DState × Bool) :=
  match env.shape n.listener with
  | Shape.func =>
    match runActions env f (env.beh n.listener) pd1 (pushLog g1 nid n.listener) with
    | none => none
    | some (pd2, g3, threw) =>
      some (pd2, if threw then pushErr g3 else g3, false)
  | Shape.objHandle =>
    if n.listenerType == ATTRIBUTE then some (pd1, g1, false)
    else
      match runActions env f (env.beh n.listener) pd1 (pushLog g1 nid n.listener) with
      | none => none
      | some (pd2, g3, threw) => some (pd2, g3, threw)
  | Shape.objNoHandle => some (pd1, g1, false)

/-- Translation of the `while (node != null)` loop of `dispatchEvent`
(source lines 794-838), walking the chain from `node` with `prev` the
last node kept in the chain.  Per iteration: splice the node out first
when it is `once`; set the passive-listener marker; invoke the listener;
break when `immediateStopped` was set; then advance through the
*current* `next` field of the node object (a live pointer read, so
mutations made by re-entrant dispatches are observed).  Returns
`(escaped, pd, g)` where `escaped` is true when an exception propagated
out of the loop. -/
def dispatchLoop (env : Env) :
    Nat → Option Nat → Option Nat → PrivateData → DState →
      Option (Bool × PrivateData × DState)
  | 0, _, _, _, _ => none
  | _ + 1, _, none, pd, g => some (false, pd, g)
  | f + 1, prev, some nid, pd, g =>
    match g.heap[nid]? with
    | none => none
    | some n =>
      match invoke env f nid n
          { pd with passiveListener := if n.passive then some n.listener else none }
          (if n.once then spliceOut g prev n else g) with
      | none => none
      | some (pd2, g2, escaped) =>
        if escaped then some (true, pd2, g2)
        else if pd2.immediateStopped then some (false, pd2, g2)
        else
          match g2.heap[nid]? with
          | none => none
          | some n2 =>
            dispatchLoop env f (if n.once then prev else some nid) n2.next pd2 g2

/-- Translation of `dispatchEvent` (source lines 776-844) for an event
of the modelled name whose `Boolean(event.cancelable)` is `cancelable`.
If no chain is registered, return `true` immediately without
constructing a wrapper (the second component is `none` exactly in that
case; otherwise it holds the final private data of the wrapper).  After
the loop the passive marker, the event phase and `currentTarget` are
cleared and `!wrappedEvent.defaultPrevented` is returned; an exception
escaping the loop propagates to the caller (`Except.error`). `none`
means fuel ran out. -/
def dispatchEvent (env : Env) :
    Nat → Bool → DState →
      Option (Except Unit Bool × Option PrivateData × DState)
  | 0, _, _ => none
  | f + 1, cancelable, g =>
    match g.head with
    | none => some (Except.ok true, none, g)
    | some h =>
      match dispatchLoop env f none (some h) (initPrivateData cancelable) g with
      | none => none
      | some (true, pd, g2) => some (Except.error (), some pd, g2)
      | some (false, pd, g2) =>
        let pdF := { pd with
          passiveListener := none, eventPhase := 0, hasCurrentTarget := false }
        some (Except.ok !pdF.canceled, some pdF, g2)

end

/-- The duplicate-check walk of `addEventListener` (source lines
713-728): traverse to the tail; if a node with the same callback
identity and computed listener type exists, ignore the call; otherwise
link a fresh node after the tail.  The fuel passed by `addEventListener`
exceeds the length of any acyclic chain, so the fuel-exhaustion branch
is unreachable in reachable states. -/
def addLoop (l lt : Nat) (passive once : Bool) :
    Nat → Nat → DState → DState
  | 0, _, g => g
  | f + 1, nid, g =>
    match g.heap[nid]? with
    | none => g
    | some n =>
      if n.listener == l && n.listenerType == lt then g
      else
        match n.next with
        | some nx => addLoop l lt passive once f nx g
        | none =>
          { g with heap := (setNext g.heap nid (some g.heap.length)
              ++ [⟨l, lt, passive, once, none⟩]) }

/-- Translation of `addEventListener` (source lines 684-729) for the
modelled event name; `capture`, `passive`, `once` are the boolean-coerced
options, and the listener type is `capture ? CAPTURE : BUBBLE`.  The
null-listener and invalid-listener guards of the source do not arise for
callback identities. -/
def addEventListener (g : DState) (l : Nat) (capture passive once : Bool) :
    DState :=
  let lt := if capture then CAPTURE else BUBBLE
  match g.head with
  | none =>
    { g with
        heap := g.heap ++ [⟨l, lt, passive, once, none⟩]
        head := some g.heap.length }
  | some h => addLoop l lt passive once (g.heap.length + 1) h g

/-- The getter walk of `defineEventAttributeDescriptor` (source lines
540-550): return the callback of the first ATTRIBUTE-mode node, else
null. -/
def attrGetLoop (heap : List ListenerNode) : Nat → Option Nat → Option Nat
  | 0, _ => none
  | _ + 1, none => none
  | f + 1, some i =>
    match heap[i]? with
    | none => none
    | some n =>
      if n.listenerType == ATTRIBUTE then some n.listener
      else attrGetLoop heap f n.next

/-- The `on<name>` attribute getter. -/
def attributeGetter (g : DState) : Option Nat :=
  attrGetLoop g.heap g.heap.length g.head

/-- The removal pass of the attribute setter (source lines 558-576):
traverse to the tail while splicing out every ATTRIBUTE-mode node,
keeping `prev` at the last non-ATTRIBUTE node.  Returns the final `prev`
together with the updated state. -/
def attrSetLoop : Nat → Option Nat → Option Nat → DState →
    Option Nat × DState
  | 0, prev, _, g => (prev, g)
  | _ + 1, prev, none, g => (prev, g)
  | f + 1, prev, some nid, g =>
    match g.heap[nid]? with
    | none => (prev, g)
    | some n =>
      let g1 := if n.listenerType == ATTRIBUTE then spliceOut g prev n else g
      let prev1 := if n.listenerType == ATTRIBUTE then prev else some nid
      attrSetLoop f prev1 n.next g1

/-- Translation of the attribute setter of
`defineEventAttributeDescriptor` (source lines 552-593): coerce a
non-callable non-object value to null (`l = none`), remove every
existing ATTRIBUTE-mode node, then, when the new value is non-null,
append a fresh ATTRIBUTE registration after the last non-ATTRIBUTE node
(or install it as the head when none remains). -/
def attributeSetter (g : DState) (l : Option Nat) : DState :=
  let r := attrSetLoop (g.heap.length + 1) none g.head g
  match l with
  | none => r.2
  | some lv =>
    match r.1 with
    | none =>
      { r.2 with
          heap := r.2.heap ++ [⟨lv, ATTRIBUTE, false, false, none⟩]
          head := some r.2.heap.length }
    | some p =>
      { r.2 with heap := (setNext r.2.heap p (some r.2.heap.length)
          ++ [⟨lv, ATTRIBUTE, false, false, none⟩]) }

/-- Whether executing a listener script sets the `immediateStopped`
flag: true exactly when a `stopImmediatePropagation` call occurs before
any point where the body throws. -/
def scriptStops : List Action → Bool
  | [] => false
  | Action.stopImmediatePropagation :: _ => true
  | Action.throwErr :: _ => false
  | _ :: rest => scriptStops rest

/-- The effect of a listener script on the private data of the current
wrapper, ignoring the registry state (faithful for scripts without
`redispatch`, whose inner dispatch works on a fresh wrapper). -/
def runPd : List Action → PrivateData → PrivateData
  | [], pd => pd
  | Action.preventDefault :: rest, pd => runPd rest (setCancelFlagPd pd)
  | Action.stopPropagation :: rest, pd => runPd rest (stopPropagation pd)
  | Action.stopImmediatePropagation :: rest, pd =>
    runPd rest (stopImmediatePropagation pd)
  | Action.throwErr :: _, pd => pd
  | Action.redispatch :: rest, pd => runPd rest pd

/-- The node data visible to the dispatch logic (everything except the
`next` pointer). -/
def dataAt (heap : List ListenerNode) (i : Nat) :
    Option (Nat × Nat × Bool × Bool) :=
  (heap[i]?).map fun n => (n.listener, n.listenerType, n.passive, n.once)

/-- The callback identity stored at heap index `i` (0 on a dangling
index, which never occurs at the use sites). -/
def listenerAt (heap : List ListenerNode) (i : Nat) : Nat :=
  ((heap[i]?).map ListenerNode.listener).getD 0

/-- The listener type stored at heap index `i`. -/
def typeAt (heap : List ListenerNode) (i : Nat) : Nat :=
  ((heap[i]?).map ListenerNode.listenerType).getD 0

/-- The `once` flag stored at heap index `i`. -/
def onceAt (heap : List ListenerNode) (i : Nat) : Bool :=
  ((heap[i]?).map ListenerNode.once).getD false

/-- Whether the node at heap index `i` is an ATTRIBUTE-mode node. -/
def isAttrAt (heap : List ListenerNode) (i : Nat) : Bool :=
  typeAt heap i == ATTRIBUTE

/-- Whether invoking the node at heap index `i` sets `immediateStopped`. -/
def stopsAt (env : Env) (heap : List ListenerNode) (i : Nat) : Bool :=
  scriptStops (env.beh (listenerAt heap i))

/-- The duplicate test of `addEventListener` / `removeEventListener`:
`node.listener === listener && node.listenerType === listenerType`. -/
def matchesAt (heap : List ListenerNode) (i l lt : Nat) : Bool :=
  match heap[i]? with
  | some n => n.listener == l && n.listenerType == lt
  | none => false

/-- The node ids the dispatch walk invokes when started on this list of
chain ids and no listener mutates the chain: the walk covers the chain
in order and terminates right after the first node whose script sets
`immediateStopped`. -/
def invokedPart (env : Env) (heap : List ListenerNode) : List Nat → List Nat
  | [] => []
  | i :: rest =>
    i :: (if stopsAt env heap i then [] else invokedPart env heap rest)

/-- `Walks heap node ids`: following `next` pointers from `node` until
null visits exactly the heap indices `ids`. -/
inductive Walks (heap : List ListenerNode) : Option Nat → List Nat → Prop where
  | nil : Walks heap none []
  | cons {i : Nat} {n : ListenerNode} {ids : List Nat} :
      heap[i]? = some n → Walks heap n.next ids → Walks heap (some i) (i :: ids)

/-- `Reaches heap h ks p cur`: starting from the pointer `h`, following
`next` pointers visits exactly `ks` and then stands at `cur`, with `p`
the last visited node (`none` iff no node was visited yet).  This is the
shape of the `(prev, node)` pair maintained by the traversal loops of
the source. -/
inductive Reaches (heap : List ListenerNode) (h : Option Nat) :
    List Nat → Option Nat → Option Nat → Prop where
  | nil : Reaches heap h [] none h
  | snoc {ks : List Nat} {p : Option Nat} {i : Nat} {n : ListenerNode} :
      Reaches heap h ks p (some i) → heap[i]? = some n →
      Reaches heap h (ks ++ [i]) (some i) n.next

/-- One `addEventListener` call: the callback identity and the coerced
options. -/
structure AddOp where
  listener : Nat
  capture : Bool
  passive : Bool
  once : Bool
deriving DecidableEq

/-- Run a sequence of `addEventListener` calls. -/
def runAdds (g : DState) : List AddOp → DState
  | [] => g
  | o :: rest =>
    runAdds (addEventListener g o.listener o.capture o.passive o.once) rest

/-- A registry operation: an `addEventListener` call or an assignment to
the `on<name>` event attribute. -/
inductive TOp where
  | add (listener : Nat) (capture passive once : Bool)
  | setAttr (listener : Option Nat)
deriving DecidableEq

/-- Run a sequence of registry operations. -/
def runOps (g : DState) : List TOp → DState
  | [] => g
  | TOp.add l c p o :: rest => runOps (addEventListener g l c p o) rest
  | TOp.setAttr l :: rest => runOps (attributeSetter g l) rest

/-- Run `k` successive top-level `dispatchEvent` calls (each with fuel
`f` and an event whose coerced `cancelable` is `cb`), keeping the
registry state across them. -/
def dispatchN (env : Env) (f : Nat) (cb : Bool) : Nat → DState → Option DState
  | 0, g => some g
  | k + 1, g =>
    match dispatchEvent env f cb g with
    | none => none
    | some (_, _, g2) => dispatchN env f cb k g2

/-- The number of invocation records of the registration at heap index
`o` in the ghost log. -/
def countNode (log : List CallRecord) (o : Nat) : Nat :=
  (log.filter fun r => r.node == o).length

/-- The number of ATTRIBUTE-mode nodes on a list of chain ids. -/
def attrCount (heap : List ListenerNode) (ids : List Nat) : Nat :=
  (ids.filter fun i => isAttrAt heap i).length

deriving instance DecidableEq for Except

/-- The node data an `addEventListener` call installs. -/
def specData (o : AddOp) : Nat × Nat × Bool × Bool :=
  (o.listener, if o.capture then CAPTURE else BUBBLE, o.passive, o.once)

/-- A behaviour environment in which every callback is a plain function
with an empty body. -/
def envNil : Env := ⟨fun _ => [], fun _ => Shape.func⟩

/-- Behaviour environment for the re-entrancy scenario: callback 0
re-enters `dispatchEvent`, every other callback does nothing; all are
function-shaped. -/
def envRedisp : Env :=
  ⟨fun l => if l == 0 then [Action.redispatch] else [], fun _ => Shape.func⟩

/-- Every callback is a plain function that calls `preventDefault`. -/
def envPrevent : Env := ⟨fun _ => [Action.preventDefault], fun _ => Shape.func⟩

/-- Callback 0 calls `stopPropagation`; every other callback does
nothing; all are function-shaped. -/
def envStopProp : Env :=
  ⟨fun l => if l == 0 then [Action.stopPropagation] else [], fun _ => Shape.func⟩

/-- Callback 1 calls `stopImmediatePropagation`; every other callback
does nothing; all are function-shaped. -/
def envStopImm : Env :=
  ⟨fun l => if l == 1 then [Action.stopImmediatePropagation] else [],
    fun _ => Shape.func⟩

/-- Callback 0 throws; every callback is function-shaped. -/
def envThrowFunc : Env :=
  ⟨fun l => if l == 0 then [Action.throwErr] else [], fun _ => Shape.func⟩

/-- Callback 0 throws and is an object with a `handleEvent` method;
every other callback is a plain function doing nothing. -/
def envThrowObj : Env :=
  ⟨fun l => if l == 0 then [Action.throwErr] else [],
    fun l => if l == 0 then Shape.objHandle else Shape.func⟩

/-- The registry after registering callbacks 0 and 1, both `once`, in
that order (the re-entrancy counterexample chain). -/
def gRedisp : DState :=
  addEventListener (addEventListener emptyTarget 0 false false true) 1 false false true

/-- The registry after `target.onname = 10`, then
`addEventListener(name, 20)`, then `target.onname = 11`. -/
def gAttrSwap : DState :=
  attributeSetter
    (addEventListener (attributeSetter emptyTarget (some 10)) 20 false false false)
    (some 11)

/-- The registry after registering callbacks 0 and 1 (no options). -/
def gTwo : DState :=
  addEventListener (addEventListener emptyTarget 0 false false false) 1 false false false

/-- The registry after registering callbacks 0, 1 and 2 (no options). -/
def gThree : DState :=
  addEventListener (addEventListener (addEventListener emptyTarget
    0 false false false) 1 false false false) 2 false false false

/-- The registry after registering callback 0 with `once`. -/
def gOnce : DState := addEventListener emptyTarget 0 false false true

/-- The dispatch-visible data of the current chain, head first. -/
def chainData (g : DState) : List (Nat × Nat × Bool × Bool) :=
  (chainIds g).filterMap fun i => dataAt g.heap i

/-! Frame and composition lemmas for chain walks.  `setNext` only
rewrites the `next` field of one node, so walks avoiding that node are
unaffected, and the dispatch-visible node data is never affected. -/

theorem setNext_length (heap : List ListenerNode) (p : Nat) (nx : Option Nat) :
    (setNext heap p nx).length = heap.length := by
  unfold setNext
  cases h : heap[p]? with
  | none => rfl
  | some n => simp

theorem setNext_getElem_ne (heap : List ListenerNode) (p : Nat) (nx : Option Nat)
    (i : Nat) (h : i ≠ p) : (setNext heap p nx)[i]? = heap[i]? := by
  unfold setNext
  cases hp : heap[p]? with
  | none => rfl
  | some n => exact List.getElem?_set_ne (Ne.symm h)

theorem setNext_getElem_self (heap : List ListenerNode) (p : Nat) (nx : Option Nat)
    (n : ListenerNode) (h : heap[p]? = some n) :
    (setNext heap p nx)[p]? = some { n with next := nx } := by
  unfold setNext
  rw [h]
  exact List.getElem?_set_self (List.getElem?_eq_some.mp h).1

theorem dataAt_setNext (heap : List ListenerNode) (p : Nat) (nx : Option Nat)
    (i : Nat) : dataAt (setNext heap p nx) i = dataAt heap i := by
  by_cases h : i = p
  · subst h
    cases hp : heap[i]? with
    | none =>
      unfold setNext
      rw [hp]
    | some n =>
      unfold dataAt
      rw [setNext_getElem_self heap i nx n hp, hp]
      rfl
  · unfold dataAt
    rw [setNext_getElem_ne heap p nx i h]

theorem fields_of_dataAt {heap1 heap2 : List ListenerNode} {i : Nat}
    (h : dataAt heap1 i = dataAt heap2 i) :
    listenerAt heap1 i = listenerAt heap2 i ∧
      typeAt heap1 i = typeAt heap2 i ∧ onceAt heap1 i = onceAt heap2 i := by
  unfold dataAt at h
  unfold listenerAt typeAt onceAt
  cases h1 : heap1[i]? with
  | none =>
    rw [h1] at h
    cases h2 : heap2[i]? with
    | none => exact ⟨rfl, rfl, rfl⟩
    | some n2 => rw [h2] at h; exact absurd h (by simp)
  | some n1 =>
    rw [h1] at h
    cases h2 : heap2[i]? with
    | none => rw [h2] at h; exact absurd h (by simp)
    | some n2 =>
      rw [h2] at h
      simp at h
      simp [h.1, h.2.1, h.2.2.2]

theorem listenerAt_of_dataAt {heap1 heap2 : List ListenerNode} {i : Nat}
    (h : dataAt heap1 i = dataAt heap2 i) :
    listenerAt heap1 i = listenerAt heap2 i :=
  (fields_of_dataAt h).1

theorem typeAt_of_dataAt {heap1 heap2 : List ListenerNode} {i : Nat}
    (h : dataAt heap1 i = dataAt heap2 i) : typeAt heap1 i = typeAt heap2 i :=
  (fields_of_dataAt h).2.1

theorem onceAt_of_dataAt {heap1 heap2 : List ListenerNode} {i : Nat}
    (h : dataAt heap1 i = dataAt heap2 i) : onceAt heap1 i = onceAt heap2 i :=
  (fields_of_dataAt h).2.2

theorem stopsAt_of_dataAt {env : Env} {heap1 heap2 : List ListenerNode} {i : Nat}
    (h : dataAt heap1 i = dataAt heap2 i) :
    stopsAt env heap1 i = stopsAt env heap2 i := by
  unfold stopsAt
  rw [listenerAt_of_dataAt h]

theorem Walks.valid {heap : List ListenerNode} {node : Option Nat} {ids : List Nat}
    (w : Walks heap node ids) : ∀ i ∈ ids, i < heap.length := by
  induction w with
  | nil => intro i hi; cases hi
  | @cons i n tl hget hw ih =>
    intro j hj
    rcases List.mem_cons.mp hj with rfl | hj
    · exact (List.getElem?_eq_some.mp hget).1
    · exact ih j hj

theorem Walks.deterministic {heap : List ListenerNode} {node : Option Nat}
    {ids1 ids2 : List Nat} (w1 : Walks heap node ids1) (w2 : Walks heap node ids2) :
    ids1 = ids2 := by
  induction w1 generalizing ids2 with
  | nil => cases w2; rfl
  | @cons i n tl hget hw ih =>
    cases w2 with
    | cons hget2 hw2 =>
      rw [hget] at hget2
      injection hget2 with hn
      subst hn
      rw [ih hw2]

theorem Walks.setNext_frame {heap : List ListenerNode} {node : Option Nat}
    {ids : List Nat} {p : Nat} (nx : Option Nat) (w : Walks heap node ids)
    (hp : p ∉ ids) : Walks (setNext heap p nx) node ids := by
  revert hp
  induction w with
  | nil => intro _; exact Walks.nil
  | @cons i n tl hget hw ih =>
    intro hp
    have hip : i ≠ p := fun hh => hp (hh ▸ List.mem_cons_self i tl)
    exact Walks.cons (by rw [setNext_getElem_ne heap p nx i hip]; exact hget)
      (ih fun hh => hp (List.mem_cons_of_mem i hh))

theorem Walks.append_frame {heap : List ListenerNode} {node : Option Nat}
    {ids : List Nat} (ext : List ListenerNode) (w : Walks heap node ids) :
    Walks (heap ++ ext) node ids := by
  induction w with
  | nil => exact Walks.nil
  | @cons i n tl hget hw ih =>
    exact Walks.cons
      (by rw [List.getElem?_append_left (List.getElem?_eq_some.mp hget).1]; exact hget) ih

theorem Reaches.frame_setNext {heap : List ListenerNode} {h : Option Nat}
    {ks : List Nat} {pr cur : Option Nat} {p : Nat} (nx : Option Nat)
    (r : Reaches heap h ks pr cur) (hp : p ∉ ks) :
    Reaches (setNext heap p nx) h ks pr cur := by
  revert hp
  induction r with
  | nil => intro _; exact Reaches.nil
  | @snoc ks0 p0 i n hr hget ih =>
    intro hp
    have hip : i ≠ p := fun hh => hp (hh ▸ List.mem_append_right ks0 (by simp))
    exact Reaches.snoc (ih fun hh => hp (List.mem_append_left _ hh))
      (by rw [setNext_getElem_ne heap p nx i hip]; exact hget)

theorem Reaches.frame_append {heap : List ListenerNode} {h : Option Nat}
    {ks : List Nat} {pr cur : Option Nat} (ext : List ListenerNode)
    (r : Reaches heap h ks pr cur) : Reaches (heap ++ ext) h ks pr cur := by
  induction r with
  | nil => exact Reaches.nil
  | @snoc ks0 p0 i n hr hget ih =>
    exact Reaches.snoc ih
      (by rw [List.getElem?_append_left (List.getElem?_eq_some.mp hget).1]; exact hget)

theorem Reaches.compose_walks {heap : List ListenerNode} {h : Option Nat}
    {ks : List Nat} {pr cur : Option Nat} {s : List Nat}
    (r : Reaches heap h ks pr cur) (w : Walks heap cur s) :
    Walks heap h (ks ++ s) := by
  induction r generalizing s with
  | nil => simpa using w
  | @snoc ks0 p0 i n hr hget ih =>
    have h2 := ih (Walks.cons hget w)
    rw [List.append_assoc]
    simpa using h2

theorem Reaches.prev_eq_getLast {heap : List ListenerNode} {h : Option Nat}
    {ks : List Nat} {pr cur : Option Nat} (r : Reaches heap h ks pr cur) :
    pr = ks.getLast? := by
  induction r with
  | nil => rfl
  | @snoc ks0 p0 i n hr hget ih => rw [List.getLast?_concat]

theorem Reaches.setNext_last {heap : List ListenerNode} {h : Option Nat}
    {ks : List Nat} {p : Nat} {cur : Option Nat} (nx : Option Nat)
    (r : Reaches heap h ks (some p) cur) (hnd : ks.Nodup) :
    Reaches (setNext heap p nx) h ks (some p) nx := by
  cases r with
  | snoc hr hget =>
    rename_i ks0 p0 n
    have hp0 : p ∉ ks0 := by
      have hd := List.nodup_append.mp hnd
      intro hmem
      exact hd.2.2 hmem (by simp)
    exact Reaches.snoc (hr.frame_setNext nx hp0)
      (setNext_getElem_self heap p nx n hget)

theorem Walks.length_le {heap : List ListenerNode} {node : Option Nat}
    {ids : List Nat} (w : Walks heap node ids) (hnd : ids.Nodup) :
    ids.length ≤ heap.length := by
  classical
  have h1 : ids.toFinset.card = ids.length := List.toFinset_card_of_nodup hnd
  have h2 : ids.toFinset ⊆ Finset.range heap.length := by
    intro i hi
    simp only [List.mem_toFinset] at hi
    exact Finset.mem_range.mpr (w.valid i hi)
  calc ids.length = ids.toFinset.card := h1.symm
    _ ≤ (Finset.range heap.length).card := Finset.card_le_card h2
    _ = heap.length := Finset.card_range heap.length

theorem Walks.walkFrom_eq {heap : List ListenerNode} {node : Option Nat}
    {ids : List Nat} (w : Walks heap node ids) :
    ∀ f, ids.length ≤ f → walkFrom heap f node = ids := by
  induction w with
  | nil =>
    intro f _
    cases f with
    | zero => rfl
    | succ f => rfl
  | @cons i n tl hget hw ih =>
    intro f hf
    cases f with
    | zero => simp at hf
    | succ f =>
      show walkFrom heap (f + 1) (some i) = i :: tl
      unfold walkFrom
      rw [hget]
      show i :: walkFrom heap f n.next = i :: tl
      rw [ih f (by simpa using hf)]

theorem chainIds_eq {g : DState} {ids : List Nat} (w : Walks g.heap g.head ids)
    (hnd : ids.Nodup) : chainIds g = ids :=
  w.walkFrom_eq g.heap.length (w.length_le hnd)

/-- `GhostExt g g2 recs`: the registry (heap and head) is unchanged and
the ghost channels were only appended to, the log by exactly `recs`. -/
def GhostExt (g g2 : DState) (recs : List CallRecord) : Prop :=
  g2.heap = g.heap ∧ g2.head = g.head ∧ g2.log = g.log ++ recs ∧
    ∃ ds, g2.diag = g.diag ++ ds

theorem GhostExt.refl (g : DState) : GhostExt g g [] :=
  ⟨rfl, rfl, by simp, ⟨[], by simp⟩⟩

theorem GhostExt.trans {g g2 g3 : DState} {a b : List CallRecord}
    (h1 : GhostExt g g2 a) (h2 : GhostExt g2 g3 b) : GhostExt g g3 (a ++ b) := by
  obtain ⟨hh1, hd1, hl1, ds1, hg1⟩ := h1
  obtain ⟨hh2, hd2, hl2, ds2, hg2⟩ := h2
  refine ⟨hh2.trans hh1, hd2.trans hd1, ?_, ds1 ++ ds2, ?_⟩
  · rw [hl2, hl1, List.append_assoc]
  · rw [hg2, hg1, List.append_assoc]

theorem GhostExt.pushLog (g : DState) (nid l : Nat) :
    GhostExt g (pushLog g nid l) [⟨nid, l, chainIds g⟩] :=
  ⟨rfl, rfl, rfl, ⟨[], by simp [EventShim.pushLog]⟩⟩

theorem GhostExt.pushErr (g : DState) : GhostExt g (pushErr g) [] :=
  ⟨rfl, rfl, by simp [EventShim.pushErr], ⟨[Diag.listenerError], rfl⟩⟩

theorem setCancelFlag_fst (pd : PrivateData) (g : DState) :
    (setCancelFlag pd g).1 = setCancelFlagPd pd := by
  unfold setCancelFlag setCancelFlagPd
  cases pd.passiveListener with
  | some l => rfl
  | none => by_cases h : pd.cancelable <;> simp [h]

theorem setCancelFlag_snd (pd : PrivateData) (g : DState) :
    GhostExt g (setCancelFlag pd g).2 [] := by
  unfold setCancelFlag
  cases pd.passiveListener with
  | some l => exact ⟨rfl, rfl, by simp, ⟨[Diag.passivePrevent l], rfl⟩⟩
  | none =>
    by_cases h : pd.cancelable <;> simp [h] <;> exact GhostExt.refl g

theorem setCancelFlagPd_immediateStopped (pd : PrivateData) :
    (setCancelFlagPd pd).immediateStopped = pd.immediateStopped := by
  unfold setCancelFlagPd
  cases pd.passiveListener with
  | some l => rfl
  | none => by_cases h : pd.cancelable <;> simp [h]

theorem setCancelFlagPd_cancelable (pd : PrivateData) :
    (setCancelFlagPd pd).cancelable = pd.cancelable := by
  unfold setCancelFlagPd
  cases pd.passiveListener with
  | some l => rfl
  | none => by_cases h : pd.cancelable <;> simp [h]

theorem setCancelFlagPd_canceled (pd : PrivateData) :
    (setCancelFlagPd pd).canceled =
      (pd.canceled || (pd.passiveListener.isNone && pd.cancelable)) := by
  unfold setCancelFlagPd
  cases pd.passiveListener with
  | some l => simp
  | none => by_cases h : pd.cancelable <;> simp [h]

theorem runPd_immediateStopped (acts : List Action) :
    ∀ pd : PrivateData,
      (runPd acts pd).immediateStopped = (pd.immediateStopped || scriptStops acts) := by
  induction acts with
  | nil => intro pd; simp [runPd, scriptStops]
  | cons a rest ih =>
    intro pd
    cases a with
    | preventDefault =>
      show (runPd rest (setCancelFlagPd pd)).immediateStopped = _
      rw [ih, setCancelFlagPd_immediateStopped]
      rfl
    | stopPropagation =>
      show (runPd rest (stopPropagation pd)).immediateStopped = _
      rw [ih]
      rfl
    | stopImmediatePropagation =>
      show (runPd rest (stopImmediatePropagation pd)).immediateStopped = _
      rw [ih]
      simp [stopImmediatePropagation, scriptStops]
    | throwErr => simp [runPd, scriptStops]
    | redispatch =>
      show (runPd rest pd).immediateStopped = _
      rw [ih]
      rfl

/-- Characterization of `runActions` for a script without re-entrant
dispatch: the private data evolves by `runPd` and the registry is left
untouched (only diagnostics may be appended). -/
theorem runActions_char (env : Env) :
    ∀ (f : Nat) (acts : List Action) (pd : PrivateData) (g : DState)
      (out : PrivateData × DState × Bool),
      Action.redispatch ∉ acts →
      runActions env f acts pd g = some out →
      out.1 = runPd acts pd ∧ GhostExt g out.2.1 [] := by
  intro f
  induction f with
  | zero =>
    intro acts pd g out _ h
    exact absurd h (by simp [runActions])
  | succ f ih =>
    intro acts pd g out hnr h
    cases acts with
    | nil =>
      unfold runActions at h
      injection h with h
      subst h
      exact ⟨rfl, GhostExt.refl g⟩
    | cons a rest =>
      have hnr2 : Action.redispatch ∉ rest := fun hm => hnr (List.mem_cons_of_mem a hm)
      cases a with
      | preventDefault =>
        unfold runActions at h
        have h2 := ih rest (setCancelFlag pd g).1 (setCancelFlag pd g).2 out hnr2 h
        refine ⟨?_, ?_⟩
        · rw [h2.1, setCancelFlag_fst]
          rfl
        · have := (setCancelFlag_snd pd g).trans h2.2
          simpa using this
      | stopPropagation =>
        unfold runActions at h
        exact ⟨(ih rest _ g out hnr2 h).1, (ih rest _ g out hnr2 h).2⟩
      | stopImmediatePropagation =>
        unfold runActions at h
        exact ⟨(ih rest _ g out hnr2 h).1, (ih rest _ g out hnr2 h).2⟩
      | throwErr =>
        unfold runActions at h
        injection h with h
        subst h
        exact ⟨rfl, GhostExt.refl g⟩
      | redispatch => exact absurd (List.mem_cons_self _ _) hnr

/-- `invoke` on a function-shaped listener whose script performs no
re-entrant dispatch: no exception escapes, the private data evolves by
`runPd`, and the registry is unchanged with exactly one new log
record carrying the pre-invocation chain. -/
theorem invoke_func_char (env : Env) {f nid : Nat} {n : ListenerNode}
    {pd1 : PrivateData} {g1 : DState} {out : PrivateData × DState × Bool}
    (hs : env.shape n.listener = Shape.func)
    (hnr : Action.redispatch ∉ env.beh n.listener)
    (h : invoke env f nid n pd1 g1 = some out) :
    out.1 = runPd (env.beh n.listener) pd1 ∧ out.2.2 = false ∧
      GhostExt g1 out.2.1 [⟨nid, n.listener, chainIds g1⟩] := by
  unfold invoke at h
  rw [hs] at h
  cases hr : runActions env f (env.beh n.listener) pd1 (pushLog g1 nid n.listener) with
  | none => rw [hr] at h; exact absurd h (by simp)
  | some r =>
    rw [hr] at h
    obtain ⟨pd2, g3, threw⟩ := r
    injection h with h
    subst h
    have h2 := runActions_char env f _ pd1 _ _ hnr hr
    refine ⟨h2.1, rfl, ?_⟩
    have base := (GhostExt.pushLog g1 nid n.listener).trans h2.2
    cases threw with
    | false => simpa using base
    | true =>
      have := base.trans (GhostExt.pushErr g3)
      simpa using this

/-- The private data returned by `runActions` keeps the `cancelable`
flag of the raw event, and when that flag is false the `canceled` flag
is never changed (for arbitrary scripts, re-entrant dispatch included:
an inner dispatch works on its own wrapper). -/
theorem runActions_cancel_inv (env : Env) :
    ∀ (f : Nat) (acts : List Action) (pd : PrivateData) (g : DState)
      (out : PrivateData × DState × Bool),
      runActions env f acts pd g = some out →
      out.1.cancelable = pd.cancelable ∧
        (pd.cancelable = false → out.1.canceled = pd.canceled) := by
  intro f
  induction f with
  | zero => intro acts pd g out h; exact absurd h (by simp [runActions])
  | succ f ih =>
    intro acts pd g out h
    cases acts with
    | nil =>
      unfold runActions at h
      injection h with h
      subst h
      exact ⟨rfl, fun _ => rfl⟩
    | cons a rest =>
      cases a with
      | preventDefault =>
        unfold runActions at h
        have h2 := ih rest (setCancelFlag pd g).1 (setCancelFlag pd g).2 out h
        rw [setCancelFlag_fst] at h2
        constructor
        · rw [h2.1, setCancelFlagPd_cancelable]
        · intro hc
          rw [h2.2 (by rw [setCancelFlagPd_cancelable]; exact hc),
            setCancelFlagPd_canceled, hc]
          simp
      | stopPropagation =>
        unfold runActions at h
        exact ih rest (stopPropagation pd) g out h
      | stopImmediatePropagation =>
        unfold runActions at h
        exact ih rest (stopImmediatePropagation pd) g out h
      | throwErr =>
        unfold runActions at h
        injection h with h
        subst h
        exact ⟨rfl, fun _ => rfl⟩
      | redispatch =>
        unfold runActions at h
        cases hd : dispatchEvent env f false g with
        | none => rw [hd] at h; exact absurd h (by simp)
        | some r =>
          rw [hd] at h
          obtain ⟨e, pdo, g2⟩ := r
          cases e with
          | error e =>
            injection h with h
            subst h
            exact ⟨rfl, fun _ => rfl⟩
          | ok b => exact ih rest pd g2 out h

theorem invoke_cancel_inv (env : Env) {f nid : Nat} {n : ListenerNode}
    {pd1 : PrivateData} {g1 : DState} {out : PrivateData × DState × Bool}
    (h : invoke env f nid n pd1 g1 = some out) :
    out.1.cancelable = pd1.cancelable ∧
      (pd1.cancelable = false → out.1.canceled = pd1.canceled) := by
  unfold invoke at h
  cases hs : env.shape n.listener with
  | func =>
    rw [hs] at h
    cases hr : runActions env f (env.beh n.listener) pd1 (pushLog g1 nid n.listener) with
    | none => rw [hr] at h; exact absurd h (by simp)
    | some r =>
      rw [hr] at h
      obtain ⟨pd2, g3, threw⟩ := r
      injection h with h
      subst h
      exact runActions_cancel_inv env f _ pd1 _ (pd2, g3, threw) hr
  | objHandle =>
    rw [hs] at h
    by_cases ht : n.listenerType == ATTRIBUTE
    · rw [if_pos ht] at h
      injection h with h
      subst h
      exact ⟨rfl, fun _ => rfl⟩
    · rw [if_neg ht] at h
      cases hr : runActions env f (env.beh n.listener) pd1 (pushLog g1 nid n.listener) with
      | none => rw [hr] at h; exact absurd h (by simp)
      | some r =>
        rw [hr] at h
        obtain ⟨pd2, g3, threw⟩ := r
        injection h with h
        subst h
        exact runActions_cancel_inv env f _ pd1 _ (pd2, g3, threw) hr
  | objNoHandle =>
    rw [hs] at h
    injection h with h
    subst h
    exact ⟨rfl, fun _ => rfl⟩

/-- The private data returned by the dispatch loop keeps the
`cancelable` flag, and when it is false the `canceled` flag is never
set (for arbitrary listener behaviours). -/
theorem dispatchLoop_cancel_inv (env : Env) :
    ∀ (f : Nat) (prev node : Option Nat) (pd : PrivateData) (g : DState)
      (out : Bool × PrivateData × DState),
      dispatchLoop env f prev node pd g = some out →
      out.2.1.cancelable = pd.cancelable ∧
        (pd.cancelable = false → out.2.1.canceled = pd.canceled) := by
  intro f
  induction f with
  | zero => intro prev node pd g out h; exact absurd h (by simp [dispatchLoop])
  | succ f ih =>
    intro prev node pd g out h
    cases node with
    | none =>
      unfold dispatchLoop at h
      injection h with h
      subst h
      exact ⟨rfl, fun _ => rfl⟩
    | some nid =>
      unfold dispatchLoop at h
      split at h
      · exact absurd h (by simp)
      · rename_i n hget
        split at h
        · exact absurd h (by simp)
        · rename_i r pd2 g2 escaped hinv
          have hI := invoke_cancel_inv env hinv
          split at h
          · injection h with h
            subst h
            exact hI
          · split at h
            · injection h with h
              subst h
              exact hI
            · split at h
              · exact absurd h (by simp)
              · rename_i n2 hget2
                have hL := ih _ _ pd2 g2 out h
                exact ⟨hL.1.trans hI.1, fun hc => by
                  rw [hL.2 (by rw [hI.1]; exact hc), hI.2 hc]⟩

theorem invoke_noEscape (env : Env) {f nid : Nat} {n : ListenerNode}
    {pd1 : PrivateData} {g1 : DState} {out : PrivateData × DState × Bool}
    (hs : env.shape n.listener = Shape.func)
    (h : invoke env f nid n pd1 g1 = some out) : out.2.2 = false := by
  unfold invoke at h
  rw [hs] at h
  cases hr : runActions env f (env.beh n.listener) pd1 (pushLog g1 nid n.listener) with
  | none => rw [hr] at h; exact absurd h (by simp)
  | some r =>
    rw [hr] at h
    obtain ⟨pd2, g3, threw⟩ := r
    injection h with h
    subst h
    rfl

/-- When every listener is function-shaped, no exception ever escapes
the dispatch loop (the try/catch of the source swallows them all). -/
theorem dispatchLoop_noEscape (env : Env)
    (hs : ∀ l, env.shape l = Shape.func) :
    ∀ (f : Nat) (prev node : Option Nat) (pd : PrivateData) (g : DState)
      (out : Bool × PrivateData × DState),
      dispatchLoop env f prev node pd g = some out → out.1 = false := by
  intro f
  induction f with
  | zero => intro prev node pd g out h; exact absurd h (by simp [dispatchLoop])
  | succ f ih =>
    intro prev node pd g out h
    cases node with
    | none =>
      unfold dispatchLoop at h
      injection h with h
      subst h
      rfl
    | some nid =>
      unfold dispatchLoop at h
      split at h
      · exact absurd h (by simp)
      · rename_i n hget
        split at h
        · exact absurd h (by simp)
        · rename_i r pd2 g2 escaped hinv
          have hesc : escaped = false := invoke_noEscape env (hs n.listener) hinv
          subst hesc
          rw [if_neg (by simp)] at h
          split at h
          · injection h with h
            subst h
            rfl
          · split at h
            · exact absurd h (by simp)
            · exact ih _ _ pd2 g2 out h

theorem invokedPart_eq_of_dataAt {env : Env} {heap1 heap2 : List ListenerNode}
    (hd : ∀ i, dataAt heap1 i = dataAt heap2 i) :
    ∀ ids, invokedPart env heap1 ids = invokedPart env heap2 ids := by
  intro ids
  induction ids with
  | nil => rfl
  | cons i rest ih =>
    unfold invokedPart
    rw [stopsAt_of_dataAt (hd i), ih]

theorem invokedPart_append_drop (env : Env) (heap : List ListenerNode) :
    ∀ ids : List Nat,
      invokedPart env heap ids ++ ids.drop (invokedPart env heap ids).length = ids := by
  intro ids
  induction ids with
  | nil => rfl
  | cons i rest ih =>
    unfold invokedPart
    by_cases h : stopsAt env heap i = true
    · rw [if_pos h]
      simp
    · rw [if_neg h]
      simp only [List.cons_append, List.length_cons, List.drop_succ_cons]
      rw [ih]

theorem invokedPart_sublist (env : Env) (heap : List ListenerNode)
    (ids : List Nat) : List.Sublist (invokedPart env heap ids) ids := by
  conv_rhs => rw [← invokedPart_append_drop env heap ids]
  exact List.sublist_append_left _ _

theorem invokedPart_no_stop (env : Env) (heap : List ListenerNode) :
    ∀ ids : List Nat, (∀ i ∈ ids, stopsAt env heap i = false) →
      invokedPart env heap ids = ids := by
  intro ids
  induction ids with
  | nil => intro _; rfl
  | cons i rest ih =>
    intro hn
    unfold invokedPart
    rw [hn i (List.mem_cons_self i rest)]
    simp only [Bool.false_eq_true, if_neg]
    rw [ih fun j hj => hn j (List.mem_cons_of_mem i hj)]
    simp

theorem invokedPart_first_stop (env : Env) (heap : List ListenerNode) :
    ∀ (pre : List Nat) (k : Nat) (post : List Nat),
      (∀ i ∈ pre, stopsAt env heap i = false) → stopsAt env heap k = true →
      invokedPart env heap (pre ++ k :: post) = pre ++ [k] := by
  intro pre
  induction pre with
  | nil =>
    intro k post _ hk
    simp only [List.nil_append]
    unfold invokedPart
    rw [hk]
    simp
  | cons i rest ih =>
    intro k post hn hk
    show invokedPart env heap (i :: (rest ++ k :: post)) = (i :: rest) ++ [k]
    unfold invokedPart
    rw [hn i (List.mem_cons_self i rest)]
    simp only [Bool.false_eq_true, if_neg, List.cons_append, List.cons.injEq, true_and]
    exact ih k post (fun j hj => hn j (List.mem_cons_of_mem i hj)) hk

theorem Reaches.prev_mem {heap : List ListenerNode} {h : Option Nat}
    {ks : List Nat} {p : Nat} {cur : Option Nat}
    (r : Reaches heap h ks (some p) cur) : p ∈ ks := by
  cases r with
  | snoc hr hget => simp

theorem Reaches.none_prev {heap : List ListenerNode} {h : Option Nat}
    {ks : List Nat} {cur : Option Nat}
    (r : Reaches heap h ks none cur) : ks = [] ∧ cur = h := by
  cases r with
  | nil => exact ⟨rfl, rfl⟩

theorem spliceOut_none (g : DState) (n : ListenerNode) :
    spliceOut g none n = { g with head := n.next } := by
  unfold spliceOut
  cases n.next <;> rfl

/-- Characterization of a full dispatch-loop walk when every listener is
function-shaped and no script re-enters dispatch.  Starting from a loop
position described by `Reaches` (the processed, still-linked prefix
`kept` with `prev` its last node) and `Walks` (the remaining chain
`suffix`), the loop invokes exactly the `invokedPart` of `suffix` in
order, each invocation record carrying the chain as it stands right
after the once-splice of its own iteration (so an invoked `once` node is
absent from it); the walk only appends to the ghost channels, preserves
every node's dispatch-visible data, and leaves the chain consisting of
`kept`, the non-once invoked nodes, and the untouched tail. -/
theorem dispatchLoop_main (env : Env) (hs : ∀ l, env.shape l = Shape.func)
    (hnr : ∀ l, Action.redispatch ∉ env.beh l) :
    ∀ (f : Nat) (kept suffix : List Nat) (prev node : Option Nat)
      (pd : PrivateData) (g : DState) (out : Bool × PrivateData × DState),
      Reaches g.heap g.head kept prev node →
      Walks g.heap node suffix →
      (kept ++ suffix).Nodup →
      pd.immediateStopped = false →
      dispatchLoop env f prev node pd g = some out →
      (∀ i, dataAt out.2.2.heap i = dataAt g.heap i) ∧
      (∃ ds, out.2.2.diag = g.diag ++ ds) ∧
      (∃ ext, out.2.2.log = g.log ++ ext ∧
        ext.map (fun r => (r.node, r.listener)) =
          (invokedPart env g.heap suffix).map (fun i => (i, listenerAt g.heap i)) ∧
        (∀ r ∈ ext, onceAt g.heap r.node = true → r.node ∉ r.chainBefore)) ∧
      Walks out.2.2.heap out.2.2.head
        (kept ++ (((invokedPart env g.heap suffix).filter fun i => !(onceAt g.heap i))
          ++ suffix.drop (invokedPart env g.heap suffix).length)) := by
  intro f
  induction f with
  | zero =>
    intro kept suffix prev node pd g out _ _ _ _ h
    exact absurd h (by simp [dispatchLoop])
  | succ f ih =>
    intro kept suffix prev node pd g out hr hw hnd hpd h
    cases node with
    | none =>
      cases hw
      unfold dispatchLoop at h
      injection h with h
      subst h
      refine ⟨fun i => rfl, ⟨[], by simp⟩, ⟨[], by simp, rfl, by simp⟩, ?_⟩
      simpa [invokedPart] using hr.compose_walks Walks.nil
    | some nid =>
      unfold dispatchLoop at h
      split at h
      · exact absurd h (by simp)
      · rename_i n hget
        cases hw with
        | cons hget0 hw0 =>
          rename_i n0 tl
          rw [hget] at hget0
          injection hget0 with he
          subst he
          have honce : onceAt g.heap nid = n.once := by simp [onceAt, hget]
          have hlst : listenerAt g.heap nid = n.listener := by
            simp [listenerAt, hget]
          have hstop : stopsAt env g.heap nid = scriptStops (env.beh n.listener) := by
            simp [stopsAt, hlst]
          have hnd2 := List.nodup_append.mp hnd
          have hnidk : nid ∉ kept := fun hk => hnd2.2.2 hk (List.mem_cons_self _ _)
          have hnidtl : nid ∉ tl := (List.nodup_cons.mp hnd2.2.1).1
          have htlnd : tl.Nodup := (List.nodup_cons.mp hnd2.2.1).2
          have hndKT : (kept ++ tl).Nodup :=
            List.nodup_append.mpr ⟨hnd2.1, htlnd,
              fun _ ha hat => hnd2.2.2 ha (List.mem_cons_of_mem _ hat)⟩
          by_cases ho : n.once = true
          · -- once: the node is spliced out before invocation
            simp only [if_pos ho] at h
            -- facts about the spliced state
            have hg1 :
                ∃ g1 : DState, spliceOut g prev n = g1 ∧
                  (∀ i, dataAt g1.heap i = dataAt g.heap i) ∧
                  g1.log = g.log ∧ g1.diag = g.diag ∧
                  g1.heap[nid]? = some n ∧
                  Reaches g1.heap g1.head kept prev n.next ∧
                  Walks g1.heap n.next tl := by
              cases prev with
              | none =>
                obtain ⟨hk0, hcur⟩ := hr.none_prev
                subst hk0
                exact ⟨{ g with head := n.next }, spliceOut_none g n,
                  fun i => rfl, rfl, rfl, hget, Reaches.nil, hw0⟩
              | some p =>
                have hpk : p ∈ kept := hr.prev_mem
                have hpnid : nid ≠ p := fun hpe => hnidk (by rw [hpe]; exact hpk)
                have hptl : p ∉ tl := fun hpt =>
                  hnd2.2.2 hpk (List.mem_cons_of_mem _ hpt)
                refine ⟨{ g with heap := setNext g.heap p n.next }, rfl,
                  fun i => dataAt_setNext g.heap p n.next i, rfl, rfl, ?_, ?_, ?_⟩
                · show (setNext g.heap p n.next)[nid]? = some n
                  rw [setNext_getElem_ne g.heap p n.next nid hpnid]
                  exact hget
                · exact hr.setNext_last n.next hnd2.1
                · exact hw0.setNext_frame n.next hptl
            obtain ⟨g1, hg1eq, hg1data, hg1log, hg1diag, hg1get, hg1reach, hg1walk⟩ := hg1
            rw [hg1eq] at h
            split at h
            · exact absurd h (by simp)
            · rename_i r pd2 g2 escaped hinv
              have hich := invoke_func_char env (hs n.listener) (hnr n.listener) hinv
              have hesc : escaped = false := hich.2.1
              subst hesc
              obtain ⟨hH2, hHd2, hL2, ds1, hDg2⟩ := hich.2.2
              have hchain1 : chainIds g1 = kept ++ tl := by
                refine chainIds_eq (hg1reach.compose_walks hg1walk) hndKT
              have hpd2imm :
                  pd2.immediateStopped = scriptStops (env.beh n.listener) := by
                have h1 := hich.1
                simp only at h1
                rw [h1, runPd_immediateStopped]
                show (pd.immediateStopped || _) = _
                rw [hpd]
                simp
              rw [if_neg (by simp)] at h
              rw [hpd2imm] at h
              by_cases hsc : scriptStops (env.beh n.listener) = true
              · -- the invoked script set immediateStopped: the walk breaks here
                rw [if_pos hsc] at h
                injection h with h
                subst h
                have hinvp : invokedPart env g.heap (nid :: tl) = [nid] := by
                  show nid :: (if stopsAt env g.heap nid = true then []
                    else invokedPart env g.heap tl) = [nid]
                  rw [hstop, if_pos hsc]
                refine ⟨?_, ?_, ?_, ?_⟩
                · intro i
                  show dataAt g2.heap i = dataAt g.heap i
                  rw [hH2]
                  exact hg1data i
                · exact ⟨ds1, by rw [hDg2, hg1diag]⟩
                · refine ⟨[⟨nid, n.listener, chainIds g1⟩], ?_, ?_, ?_⟩
                  · rw [hL2, hg1log]
                  · rw [hinvp]
                    simp [hlst]
                  · intro r hrm hro
                    rcases List.mem_singleton.mp hrm with rfl
                    show nid ∉ chainIds g1
                    rw [hchain1]
                    simp only [List.mem_append]
                    rintro (hc | hc)
                    · exact hnidk hc
                    · exact hnidtl hc
                · show Walks g2.heap g2.head _
                  rw [hH2, hHd2, hinvp]
                  have : (([nid].filter fun i => !onceAt g.heap i) :
                      List Nat) = [] := by
                    simp [honce, ho]
                  rw [this]
                  simpa using hg1reach.compose_walks hg1walk
              · -- no immediate stop: continue with the next live pointer
                rw [if_neg hsc] at h
                split at h
                · exact absurd h (by simp)
                · rename_i n2 hget2
                  have hg2get : g2.heap[nid]? = some n := by rw [hH2]; exact hg1get
                  rw [hget2] at hg2get
                  injection hg2get with hn2
                  rw [hn2] at h
                  have hreach2 : Reaches g2.heap g2.head kept prev n.next := by
                    rw [hH2, hHd2]
                    exact hg1reach
                  have hwalk2 : Walks g2.heap n.next tl := by
                    rw [hH2]
                    exact hg1walk
                  have hdata2 : ∀ i, dataAt g2.heap i = dataAt g.heap i := by
                    intro i
                    rw [hH2]
                    exact hg1data i
                  have hih := ih kept tl prev n.next pd2 g2 out hreach2
                    hwalk2 hndKT (by rw [hpd2imm]; simpa using hsc) h
                  obtain ⟨ihdata, ⟨ds2, ihdiag⟩, ⟨ext2, ihlog, ihmap, ihonce⟩, ihwalk⟩ := hih
                  have hinvp : invokedPart env g.heap (nid :: tl) =
                      nid :: invokedPart env g.heap tl := by
                    show nid :: (if stopsAt env g.heap nid = true then []
                      else invokedPart env g.heap tl) = _
                    rw [hstop, if_neg hsc]
                  have hinv2 : invokedPart env g2.heap tl = invokedPart env g.heap tl :=
                    invokedPart_eq_of_dataAt hdata2 tl
                  refine ⟨?_, ?_, ?_, ?_⟩
                  · intro i
                    rw [ihdata i]
                    exact hdata2 i
                  · exact ⟨ds1 ++ ds2, by rw [ihdiag, hDg2, hg1diag, List.append_assoc]⟩
                  · refine ⟨⟨nid, n.listener, chainIds g1⟩ :: ext2, ?_, ?_, ?_⟩
                    · rw [ihlog, hL2, hg1log]
                      simp
                    · rw [hinvp]
                      simp only [List.map_cons]
                      refine congrArg₂ _ (by simp [hlst]) ?_
                      rw [ihmap, hinv2]
                      exact List.map_congr_left fun i hi => by
                        rw [listenerAt_of_dataAt (hdata2 i)]
                    · intro r hrm hro
                      rcases List.mem_cons.mp hrm with rfl | hrm
                      · show nid ∉ chainIds g1
                        rw [hchain1]
                        simp only [List.mem_append]
                        rintro (hc | hc)
                        · exact hnidk hc
                        · exact hnidtl hc
                      · exact ihonce r hrm (by rw [onceAt_of_dataAt (hdata2 r.node)]; exact hro)
                  · rw [hinvp]
                    have hfil : ((nid :: invokedPart env g.heap tl).filter
                        fun i => !onceAt g.heap i) =
                        ((invokedPart env g.heap tl).filter fun i => !onceAt g.heap i) := by
                      rw [List.filter_cons]
                      simp [honce, ho]
                    rw [hfil]
                    have hdrop : (nid :: tl).drop (nid :: invokedPart env g.heap tl).length =
                        tl.drop (invokedPart env g.heap tl).length := by
                      simp
                    rw [hdrop]
                    have hfil2 : ((invokedPart env g2.heap tl).filter
                        fun i => !onceAt g2.heap i) =
                        ((invokedPart env g.heap tl).filter fun i => !onceAt g.heap i) := by
                      rw [hinv2]
                      exact List.filter_congr fun i hi => by rw [onceAt_of_dataAt (hdata2 i)]
                    rw [← hfil2, ← hinv2]
                    exact ihwalk
          · -- not once: the node stays in the chain and becomes prev
            simp only [if_neg ho] at h
            have hreach1 : Reaches g.heap g.head (kept ++ [nid]) (some nid) n.next :=
              hr.snoc hget
            have hndKT2 : ((kept ++ [nid]) ++ tl).Nodup := by
              rw [List.append_cons] at hnd
              exact hnd
            split at h
            · exact absurd h (by simp)
            · rename_i r pd2 g2 escaped hinv
              have hich := invoke_func_char env (hs n.listener) (hnr n.listener) hinv
              have hesc : escaped = false := hich.2.1
              subst hesc
              obtain ⟨hH2, hHd2, hL2, ds1, hDg2⟩ := hich.2.2
              have hchain1 : chainIds g = kept ++ nid :: tl :=
                chainIds_eq (hr.compose_walks (Walks.cons hget hw0)) hnd
              have hpd2imm :
                  pd2.immediateStopped = scriptStops (env.beh n.listener) := by
                have h1 := hich.1
                simp only at h1
                rw [h1, runPd_immediateStopped]
                show (pd.immediateStopped || _) = _
                rw [hpd]
                simp
              rw [if_neg (by simp)] at h
              rw [hpd2imm] at h
              by_cases hsc : scriptStops (env.beh n.listener) = true
              · rw [if_pos hsc] at h
                injection h with h
                subst h
                have hinvp : invokedPart env g.heap (nid :: tl) = [nid] := by
                  show nid :: (if stopsAt env g.heap nid = true then []
                    else invokedPart env g.heap tl) = [nid]
                  rw [hstop, if_pos hsc]
                refine ⟨?_, ?_, ?_, ?_⟩
                · intro i
                  show dataAt g2.heap i = dataAt g.heap i
                  rw [hH2]
                · exact ⟨ds1, by rw [hDg2]⟩
                · refine ⟨[⟨nid, n.listener, chainIds g⟩], ?_, ?_, ?_⟩
                  · rw [hL2]
                  · rw [hinvp]
                    simp [hlst]
                  · intro r hrm hro
                    rcases List.mem_singleton.mp hrm with rfl
                    rw [honce] at hro
                    exact absurd hro (by simp [ho])
                · show Walks g2.heap g2.head _
                  rw [hH2, hHd2, hinvp]
                  have hfil : (([nid].filter fun i => !onceAt g.heap i) :
                      List Nat) = [nid] := by
                    simp [honce, ho]
                  rw [hfil]
                  have := hreach1.compose_walks hw0
                  simpa [List.append_assoc] using this
              · rw [if_neg hsc] at h
                split at h
                · exact absurd h (by simp)
                · rename_i n2 hget2
                  have hg2get : g2.heap[nid]? = some n := by rw [hH2]; exact hget
                  rw [hget2] at hg2get
                  injection hg2get with hn2
                  rw [hn2] at h
                  have hreach2 : Reaches g2.heap g2.head (kept ++ [nid]) (some nid) n.next := by
                    rw [hH2, hHd2]
                    exact hreach1
                  have hwalk2 : Walks g2.heap n.next tl := by
                    rw [hH2]
                    exact hw0
                  have hdata2 : ∀ i, dataAt g2.heap i = dataAt g.heap i := by
                    intro i
                    rw [hH2]
                  have hih := ih (kept ++ [nid]) tl (some nid) n.next pd2 g2 out hreach2
                    hwalk2 hndKT2 (by rw [hpd2imm]; simpa using hsc) h
                  obtain ⟨ihdata, ⟨ds2, ihdiag⟩, ⟨ext2, ihlog, ihmap, ihonce⟩, ihwalk⟩ := hih
                  have hinvp : invokedPart env g.heap (nid :: tl) =
                      nid :: invokedPart env g.heap tl := by
                    show nid :: (if stopsAt env g.heap nid = true then []
                      else invokedPart env g.heap tl) = _
                    rw [hstop, if_neg hsc]
                  have hinv2 : invokedPart env g2.heap tl = invokedPart env g.heap tl :=
                    invokedPart_eq_of_dataAt hdata2 tl
                  refine ⟨?_, ?_, ?_, ?_⟩
                  · intro i
                    rw [ihdata i]
                    exact hdata2 i
                  · exact ⟨ds1 ++ ds2, by rw [ihdiag, hDg2, List.append_assoc]⟩
                  · refine ⟨⟨nid, n.listener, chainIds g⟩ :: ext2, ?_, ?_, ?_⟩
                    · rw [ihlog, hL2]
                      simp
                    · rw [hinvp]
                      simp only [List.map_cons]
                      refine congrArg₂ _ (by simp [hlst]) ?_
                      rw [ihmap, hinv2]
                      exact List.map_congr_left fun i hi => by
                        rw [listenerAt_of_dataAt (hdata2 i)]
                    · intro r hrm hro
                      rcases List.mem_cons.mp hrm with rfl | hrm
                      · show (⟨nid, n.listener, chainIds g⟩ : CallRecord).node ∉ _
                        rw [honce] at hro
                        exact absurd hro (by simp [ho])
                      · exact ihonce r hrm (by rw [onceAt_of_dataAt (hdata2 r.node)]; exact hro)
                  · rw [hinvp]
                    have hfil : ((nid :: invokedPart env g.heap tl).filter
                        fun i => !onceAt g.heap i) =
                        nid :: ((invokedPart env g.heap tl).filter fun i => !onceAt g.heap i) := by
                      rw [List.filter_cons]
                      simp [honce, ho]
                    rw [hfil]
                    have hdrop : (nid :: tl).drop (nid :: invokedPart env g.heap tl).length =
                        tl.drop (invokedPart env g.heap tl).length := by
                      simp
                    rw [hdrop]
                    have hfil2 : ((invokedPart env g2.heap tl).filter
                        fun i => !onceAt g2.heap i) =
                        ((invokedPart env g.heap tl).filter fun i => !onceAt g.heap i) := by
                      rw [hinv2]
                      exact List.filter_congr fun i hi => by rw [onceAt_of_dataAt (hdata2 i)]
                    have hgoal := ihwalk
                    rw [hfil2, hinv2] at hgoal
                    simpa [List.append_assoc] using hgoal

/-- Characterization of a whole `dispatchEvent` call under the same
conditions as `dispatchLoop_main`, starting from a chain `ids`. -/
theorem dispatchEvent_char (env : Env) (hs : ∀ l, env.shape l = Shape.func)
    (hnr : ∀ l, Action.redispatch ∉ env.beh l)
    {f : Nat} {cb : Bool} {g : DState} {ids : List Nat}
    {out : Except Unit Bool × Option PrivateData × DState}
    (hw : Walks g.heap g.head ids) (hnd : ids.Nodup)
    (h : dispatchEvent env f cb g = some out) :
    (∃ r, out.1 = Except.ok r) ∧
    (∀ i, dataAt out.2.2.heap i = dataAt g.heap i) ∧
    (∃ ds, out.2.2.diag = g.diag ++ ds) ∧
    (∃ ext, out.2.2.log = g.log ++ ext ∧
      ext.map (fun r => (r.node, r.listener)) =
        (invokedPart env g.heap ids).map (fun i => (i, listenerAt g.heap i)) ∧
      (∀ r ∈ ext, onceAt g.heap r.node = true → r.node ∉ r.chainBefore)) ∧
    Walks out.2.2.heap out.2.2.head
      (((invokedPart env g.heap ids).filter fun i => !(onceAt g.heap i))
        ++ ids.drop (invokedPart env g.heap ids).length) := by
  cases f with
  | zero => exact absurd h (by simp [dispatchEvent])
  | succ f =>
    unfold dispatchEvent at h
    split at h
    · rename_i hh
      injection h with h
      subst h
      rw [hh] at hw
      cases hw
      refine ⟨⟨true, rfl⟩, fun i => rfl, ⟨[], by simp⟩,
        ⟨[], by simp, by simp [invokedPart], by simp⟩, ?_⟩
      show Walks g.heap g.head _
      rw [hh]
      simpa [invokedPart] using Walks.nil
    · rename_i hd hh
      split at h
      · exact absurd h (by simp)
      · rename_i pdo g2 hl
        have hne := dispatchLoop_noEscape env hs f none (some hd)
          (initPrivateData cb) g (true, pdo, g2) hl
        exact absurd hne (by simp)
      · rename_i pdo g2 hl
        injection h with h
        subst h
        rw [hh] at hw
        have hmain := dispatchLoop_main env hs hnr f [] ids none (some hd)
          (initPrivateData cb) g (false, pdo, g2) (by rw [← hh]; exact Reaches.nil)
          hw (by simpa using hnd) rfl hl
        obtain ⟨hdata, hdiag, hlog, hwalkF⟩ := hmain
        exact ⟨⟨_, rfl⟩, hdata, hdiag, hlog, by simpa using hwalkF⟩

theorem addLoop_succ (l lt : Nat) (passive once : Bool) (f nid : Nat)
    (g : DState) (n : ListenerNode) (hget : g.heap[nid]? = some n) :
    addLoop l lt passive once (f + 1) nid g =
      (if (n.listener == l && n.listenerType == lt) = true then g
       else
         match n.next with
         | some nx => addLoop l lt passive once f nx g
         | none =>
           { g with heap := (setNext g.heap nid (some g.heap.length)
               ++ [⟨l, lt, passive, once, none⟩]) }) := by
  conv_lhs => unfold addLoop
  rw [hget]

/-- The duplicate branch of `addEventListener`: when a node with the
same callback identity and listener type is reachable, the call leaves
the state entirely unchanged. -/
theorem addLoop_dup (l lt : Nat) (passive once : Bool) :
    ∀ (f : Nat) (suffix : List Nat) (nid : Nat) (g : DState),
      Walks g.heap (some nid) suffix →
      suffix.length ≤ f →
      (∃ i ∈ suffix, matchesAt g.heap i l lt = true) →
      addLoop l lt passive once f nid g = g := by
  intro f
  induction f with
  | zero =>
    intro suffix nid g hw hf hex
    cases hw with
    | cons hget hw0 => simp at hf
  | succ f ih =>
    intro suffix nid g hw hf hex
    cases hw with
    | cons hget hw0 =>
      rename_i n tl
      rw [addLoop_succ l lt passive once f nid g n hget]
      by_cases hm : (n.listener == l && n.listenerType == lt) = true
      · rw [if_pos hm]
      · rw [if_neg hm]
        have hmn : matchesAt g.heap nid l lt = false := by
          unfold matchesAt
          rw [hget]
          simpa using hm
        obtain ⟨i, hi, him⟩ := hex
        rcases List.mem_cons.mp hi with rfl | hi
        · rw [him] at hmn; cases hmn
        · cases hnx : n.next with
          | none =>
            rw [hnx] at hw0
            cases hw0
            cases hi
          | some nx =>
            rw [hnx] at hw0
            exact ih tl nx g hw0 (by simpa using hf) ⟨i, hi, him⟩

/-- The append branch of `addEventListener`: when no reachable node
matches, a fresh node is linked after the tail; everything already
reachable keeps its data and position, and the chain gains the new node
at its end. -/
theorem addLoop_append (l lt : Nat) (passive once : Bool) :
    ∀ (f : Nat) (kept suffix : List Nat) (pr : Option Nat) (nid : Nat) (g : DState),
      Reaches g.heap g.head kept pr (some nid) →
      Walks g.heap (some nid) suffix →
      (kept ++ suffix).Nodup →
      suffix.length ≤ f →
      (∀ i ∈ suffix, matchesAt g.heap i l lt = false) →
      (addLoop l lt passive once f nid g).heap.length = g.heap.length + 1 ∧
      (∀ i, i < g.heap.length →
        dataAt (addLoop l lt passive once f nid g).heap i = dataAt g.heap i) ∧
      dataAt (addLoop l lt passive once f nid g).heap g.heap.length =
        some (l, lt, passive, once) ∧
      (addLoop l lt passive once f nid g).log = g.log ∧
      (addLoop l lt passive once f nid g).diag = g.diag ∧
      (addLoop l lt passive once f nid g).head = g.head ∧
      Walks (addLoop l lt passive once f nid g).heap g.head
        (kept ++ suffix ++ [g.heap.length]) := by
  intro f
  induction f with
  | zero =>
    intro kept suffix pr nid g hr hw hnd hf hno
    cases hw with
    | cons hget hw0 => simp at hf
  | succ f ih =>
    intro kept suffix pr nid g hr hw hnd hf hno
    cases hw with
    | cons hget hw0 =>
      rename_i n tl
      rw [addLoop_succ l lt passive once f nid g n hget]
      have hm : (n.listener == l && n.listenerType == lt) = false := by
        have hmn := hno nid (List.mem_cons_self _ _)
        unfold matchesAt at hmn
        rw [hget] at hmn
        exact hmn
      rw [if_neg (by simp [hm])]
      cases hnx : n.next with
      | some nx =>
        rw [hnx] at hw0
        have hres := ih (kept ++ [nid]) tl (some nid) nx g
          (by have h2 := hr.snoc hget; rwa [hnx] at h2)
          hw0 (by rwa [List.append_cons] at hnd) (by simpa using hf)
          (fun i hi => hno i (List.mem_cons_of_mem _ hi))
        refine ⟨hres.1, hres.2.1, hres.2.2.1, hres.2.2.2.1, hres.2.2.2.2.1,
          hres.2.2.2.2.2.1, ?_⟩
        have hwk := hres.2.2.2.2.2.2
        simpa [List.append_assoc] using hwk
      | none =>
        rw [hnx] at hw0
        cases hw0
        -- suffix = [nid]; link a fresh node after nid
        have hnid : nid < g.heap.length := (List.getElem?_eq_some.mp hget).1
        have hlen : (setNext g.heap nid (some g.heap.length)).length = g.heap.length :=
          setNext_length g.heap nid (some g.heap.length)
        refine ⟨?_, ?_, ?_, rfl, rfl, rfl, ?_⟩
        · show (setNext g.heap nid (some g.heap.length) ++ _).length = _
          rw [List.length_append, hlen]
          rfl
        · intro i hi
          show dataAt (setNext g.heap nid (some g.heap.length) ++ _) i = _
          unfold dataAt
          rw [List.getElem?_append_left (by rw [hlen]; exact hi)]
          have hds := dataAt_setNext g.heap nid (some g.heap.length) i
          unfold dataAt at hds
          exact hds
        · show dataAt (setNext g.heap nid (some g.heap.length) ++ _) g.heap.length = _
          unfold dataAt
          nth_rewrite 2 [← hlen]
          rw [List.getElem?_concat_length]
          rfl
        · show Walks (setNext g.heap nid (some g.heap.length) ++ _) g.head
            (kept ++ [nid] ++ [g.heap.length])
          have hr2 : Reaches (setNext g.heap nid (some g.heap.length)) g.head
              (kept ++ [nid]) (some nid) (some g.heap.length) :=
            (hr.snoc hget).setNext_last (some g.heap.length) hnd
          have hr3 := hr2.frame_append [(⟨l, lt, passive, once, none⟩ : ListenerNode)]
          refine hr3.compose_walks
            (@Walks.cons _ g.heap.length ⟨l, lt, passive, once, none⟩ [] ?_ Walks.nil)
          nth_rewrite 2 [← hlen]
          rw [List.getElem?_concat_length]

/-- A second `addEventListener` call whose (callback, computed type)
pair is already registered leaves the state entirely unchanged,
whatever its `passive` and `once` options are. -/
theorem addEventListener_dup {g : DState} {ids : List Nat}
    (hw : Walks g.heap g.head ids) (hnd : ids.Nodup)
    (l : Nat) (c p o : Bool)
    (hex : ∃ i ∈ ids, matchesAt g.heap i l (if c then CAPTURE else BUBBLE) = true) :
    addEventListener g l c p o = g := by
  unfold addEventListener
  cases hh : g.head with
  | none =>
    rw [hh] at hw
    cases hw
    obtain ⟨i, hi, _⟩ := hex
    cases hi
  | some hd =>
    rw [hh] at hw
    show addLoop l (if c then CAPTURE else BUBBLE) p o (g.heap.length + 1) hd g = g
    exact addLoop_dup l (if c then CAPTURE else BUBBLE) p o (g.heap.length + 1)
      ids hd g hw (le_trans (hw.length_le hnd) (Nat.le_succ _)) hex

/-- An `addEventListener` call with a fresh (callback, computed type)
pair appends one node at the tail of the chain and touches nothing
else. -/
theorem addEventListener_append {g : DState} {ids : List Nat}
    (hw : Walks g.heap g.head ids) (hnd : ids.Nodup)
    (l : Nat) (c p o : Bool)
    (hno : ∀ i ∈ ids, matchesAt g.heap i l (if c then CAPTURE else BUBBLE) = false) :
    (addEventListener g l c p o).heap.length = g.heap.length + 1 ∧
    (∀ i, i < g.heap.length →
      dataAt (addEventListener g l c p o).heap i = dataAt g.heap i) ∧
    dataAt (addEventListener g l c p o).heap g.heap.length =
      some (l, if c then CAPTURE else BUBBLE, p, o) ∧
    (addEventListener g l c p o).log = g.log ∧
    (addEventListener g l c p o).diag = g.diag ∧
    Walks (addEventListener g l c p o).heap (addEventListener g l c p o).head
      (ids ++ [g.heap.length]) := by
  unfold addEventListener
  cases hh : g.head with
  | none =>
    rw [hh] at hw
    cases hw
    refine ⟨by simp, ?_, ?_, rfl, rfl, ?_⟩
    · intro i hi
      show dataAt (g.heap ++ _) i = dataAt g.heap i
      unfold dataAt
      rw [List.getElem?_append_left hi]
    · show dataAt (g.heap ++ _) g.heap.length = _
      unfold dataAt
      rw [List.getElem?_concat_length]
      rfl
    · show Walks (g.heap ++ _) (some g.heap.length) ([] ++ [g.heap.length])
      refine @Walks.cons _ g.heap.length
        ⟨l, if c then CAPTURE else BUBBLE, p, o, none⟩ [] ?_ Walks.nil
      rw [List.getElem?_concat_length]
  | some hd =>
    rw [hh] at hw
    have hres := addLoop_append l (if c then CAPTURE else BUBBLE) p o
      (g.heap.length + 1) [] ids none hd g (by rw [← hh]; exact Reaches.nil) hw
      (by simpa using hnd) (le_trans (hw.length_le hnd) (Nat.le_succ _)) hno
    refine ⟨hres.1, hres.2.1, hres.2.2.1, hres.2.2.2.1, hres.2.2.2.2.1, ?_⟩
    show Walks (addLoop l (if c then CAPTURE else BUBBLE) p o
      (g.heap.length + 1) hd g).heap (addLoop l (if c then CAPTURE else BUBBLE) p o
      (g.heap.length + 1) hd g).head (ids ++ [g.heap.length])
    rw [hres.2.2.2.2.2.1, hh]
    have hwk := hres.2.2.2.2.2.2
    rw [hh] at hwk
    simpa using hwk

theorem attrSetLoop_succ (f : Nat) (prev : Option Nat) (nid : Nat)
    (g : DState) (n : ListenerNode) (hget : g.heap[nid]? = some n) :
    attrSetLoop (f + 1) prev (some nid) g =
      attrSetLoop f (if n.listenerType == ATTRIBUTE then prev else some nid)
        n.next (if n.listenerType == ATTRIBUTE then spliceOut g prev n else g) := by
  conv_lhs => unfold attrSetLoop
  rw [hget]

/-- Characterization of the removal pass of the attribute setter: every
reachable ATTRIBUTE node is spliced out, everything else keeps its data
and relative order, and the final `prev` stands at the last surviving
node. -/
theorem attrSetLoop_char :
    ∀ (f : Nat) (kept suffix : List Nat) (pr node : Option Nat) (g : DState),
      Reaches g.heap g.head kept pr node →
      Walks g.heap node suffix →
      (kept ++ suffix).Nodup →
      suffix.length ≤ f →
      (∀ i, dataAt (attrSetLoop f pr node g).2.heap i = dataAt g.heap i) ∧
      (attrSetLoop f pr node g).2.heap.length = g.heap.length ∧
      (attrSetLoop f pr node g).2.log = g.log ∧
      (attrSetLoop f pr node g).2.diag = g.diag ∧
      Reaches (attrSetLoop f pr node g).2.heap (attrSetLoop f pr node g).2.head
        (kept ++ suffix.filter fun i => !(isAttrAt g.heap i))
        (attrSetLoop f pr node g).1 none := by
  intro f
  induction f with
  | zero =>
    intro kept suffix pr node g hr hw hnd hf
    cases hw with
    | nil =>
      refine ⟨fun i => rfl, rfl, rfl, rfl, ?_⟩
      simpa using hr
    | cons hget hw0 => simp at hf
  | succ f ih =>
    intro kept suffix pr node g hr hw hnd hf
    cases hw with
    | nil =>
      refine ⟨fun i => rfl, rfl, rfl, rfl, ?_⟩
      simpa using hr
    | cons hget hw0 =>
      rename_i nid n tl
      rw [attrSetLoop_succ f pr nid g n hget]
      have hattr : isAttrAt g.heap nid = (n.listenerType == ATTRIBUTE) := by
        simp [isAttrAt, typeAt, hget]
      have hnd2 := List.nodup_append.mp hnd
      have hnidk : nid ∉ kept := fun hk => hnd2.2.2 hk (List.mem_cons_self _ _)
      have hnidtl : nid ∉ tl := (List.nodup_cons.mp hnd2.2.1).1
      have htlnd : tl.Nodup := (List.nodup_cons.mp hnd2.2.1).2
      by_cases ha : (n.listenerType == ATTRIBUTE) = true
      · -- ATTRIBUTE node: spliced out, prev unchanged
        rw [if_pos ha, if_pos ha]
        have hndKT : (kept ++ tl).Nodup :=
          List.nodup_append.mpr ⟨hnd2.1, htlnd,
            fun _ hk ht => hnd2.2.2 hk (List.mem_cons_of_mem _ ht)⟩
        have hg1 :
            ∃ g1 : DState, spliceOut g pr n = g1 ∧
              (∀ i, dataAt g1.heap i = dataAt g.heap i) ∧
              g1.heap.length = g.heap.length ∧
              g1.log = g.log ∧ g1.diag = g.diag ∧
              Reaches g1.heap g1.head kept pr n.next ∧
              Walks g1.heap n.next tl := by
          cases pr with
          | none =>
            obtain ⟨hk0, hcur⟩ := hr.none_prev
            subst hk0
            exact ⟨{ g with head := n.next }, spliceOut_none g n,
              fun i => rfl, rfl, rfl, rfl, Reaches.nil, hw0⟩
          | some p =>
            have hpk : p ∈ kept := hr.prev_mem
            have hptl : p ∉ tl := fun hpt =>
              hnd2.2.2 hpk (List.mem_cons_of_mem _ hpt)
            exact ⟨{ g with heap := setNext g.heap p n.next }, rfl,
              fun i => dataAt_setNext g.heap p n.next i,
              setNext_length g.heap p n.next, rfl, rfl,
              hr.setNext_last n.next hnd2.1,
              hw0.setNext_frame n.next hptl⟩
        obtain ⟨g1, hg1eq, hg1data, hg1len, hg1log, hg1diag, hg1reach, hg1walk⟩ := hg1
        rw [hg1eq]
        have hres := ih kept tl pr n.next g1 hg1reach hg1walk hndKT (by simpa using hf)
        refine ⟨?_, ?_, ?_, ?_, ?_⟩
        · intro i
          rw [hres.1 i]
          exact hg1data i
        · rw [hres.2.1, hg1len]
        · rw [hres.2.2.1, hg1log]
        · rw [hres.2.2.2.1, hg1diag]
        · have hfl : ((nid :: tl).filter fun i => !(isAttrAt g.heap i)) =
              tl.filter fun i => !(isAttrAt g.heap i) := by
            rw [List.filter_cons]
            simp [hattr, ha]
          rw [hfl]
          have hw2 := hres.2.2.2.2
          have hfil2 : (tl.filter fun i => !(isAttrAt g1.heap i)) =
              tl.filter fun i => !(isAttrAt g.heap i) :=
            List.filter_congr fun i hi => by
              simp [isAttrAt, typeAt_of_dataAt (hg1data i)]
          rw [hfil2] at hw2
          exact hw2
      · -- non-ATTRIBUTE node: kept, becomes prev
        rw [if_neg ha, if_neg ha]
        have hndKT2 : ((kept ++ [nid]) ++ tl).Nodup := by
          rwa [List.append_cons] at hnd
        have hres := ih (kept ++ [nid]) tl (some nid) n.next g
          (hr.snoc hget) hw0 hndKT2 (by simpa using hf)
        refine ⟨hres.1, hres.2.1, hres.2.2.1, hres.2.2.2.1, ?_⟩
        have hfl : ((nid :: tl).filter fun i => !(isAttrAt g.heap i)) =
            nid :: (tl.filter fun i => !(isAttrAt g.heap i)) := by
          rw [List.filter_cons]
          simp [hattr, ha]
        rw [hfl]
        have hw2 := hres.2.2.2.2
        rw [← List.append_cons] at hw2
        exact hw2

theorem getElem?_concat_eq {α : Type} (l : List α) (a : α) (k : Nat)
    (h : l.length = k) : (l ++ [a])[k]? = some a := by
  subst h
  exact List.getElem?_concat_length l a

theorem attributeSetter_some_eq (g : DState) (lv : Nat) :
    attributeSetter g (some lv) =
      (match (attrSetLoop (g.heap.length + 1) none g.head g).1 with
       | none =>
         { (attrSetLoop (g.heap.length + 1) none g.head g).2 with
             heap := (attrSetLoop (g.heap.length + 1) none g.head g).2.heap ++
               [⟨lv, ATTRIBUTE, false, false, none⟩]
             head := some (attrSetLoop (g.heap.length + 1) none g.head g).2.heap.length }
       | some p =>
         { (attrSetLoop (g.heap.length + 1) none g.head g).2 with
             heap := (setNext (attrSetLoop (g.heap.length + 1) none g.head g).2.heap p
               (some (attrSetLoop (g.heap.length + 1) none g.head g).2.heap.length)
               ++ [⟨lv, ATTRIBUTE, false, false, none⟩]) }) := rfl

theorem attributeSetter_none_eq (g : DState) :
    attributeSetter g none = (attrSetLoop (g.heap.length + 1) none g.head g).2 := rfl

/-- Assigning a null (or non-callable, non-object) value to the event
attribute removes every ATTRIBUTE-mode node and nothing else. -/
theorem attributeSetter_none_char {g : DState} {ids : List Nat}
    (hw : Walks g.heap g.head ids) (hnd : ids.Nodup) :
    (∀ i, dataAt (attributeSetter g none).heap i = dataAt g.heap i) ∧
    (attributeSetter g none).heap.length = g.heap.length ∧
    (attributeSetter g none).log = g.log ∧
    (attributeSetter g none).diag = g.diag ∧
    Walks (attributeSetter g none).heap (attributeSetter g none).head
      (ids.filter fun i => !(isAttrAt g.heap i)) := by
  have hch := attrSetLoop_char (g.heap.length + 1) [] ids none g.head g
    Reaches.nil hw (by simpa using hnd)
    (le_trans (hw.length_le hnd) (Nat.le_succ _))
  rw [attributeSetter_none_eq]
  exact ⟨hch.1, hch.2.1, hch.2.2.1, hch.2.2.2.1,
    by simpa using hch.2.2.2.2.compose_walks Walks.nil⟩

/-- Assigning a handler to the event attribute removes every existing
ATTRIBUTE-mode node and appends one fresh ATTRIBUTE registration at the
end of the chain, after the last surviving non-ATTRIBUTE node. -/
theorem attributeSetter_some_char {g : DState} {ids : List Nat}
    (hw : Walks g.heap g.head ids) (hnd : ids.Nodup) (lv : Nat) :
    (attributeSetter g (some lv)).heap.length = g.heap.length + 1 ∧
    (∀ i, i < g.heap.length →
      dataAt (attributeSetter g (some lv)).heap i = dataAt g.heap i) ∧
    dataAt (attributeSetter g (some lv)).heap g.heap.length =
      some (lv, ATTRIBUTE, false, false) ∧
    (attributeSetter g (some lv)).log = g.log ∧
    (attributeSetter g (some lv)).diag = g.diag ∧
    Walks (attributeSetter g (some lv)).heap (attributeSetter g (some lv)).head
      ((ids.filter fun i => !(isAttrAt g.heap i)) ++ [g.heap.length]) := by
  have hch := attrSetLoop_char (g.heap.length + 1) [] ids none g.head g
    Reaches.nil hw (by simpa using hnd)
    (le_trans (hw.length_le hnd) (Nat.le_succ _))
  have hKnd : (ids.filter fun i => !(isAttrAt g.heap i)).Nodup :=
    (List.filter_sublist ids).nodup hnd
  rw [attributeSetter_some_eq]
  obtain ⟨hdata, hlen, hlog, hdiag, hreach⟩ := hch
  cases hpr : (attrSetLoop (g.heap.length + 1) none g.head g).1 with
  | none =>
    rw [hpr] at hreach
    obtain ⟨hK, hcur⟩ := hreach.none_prev
    simp only [List.nil_append] at hK
    refine ⟨by simp [hlen], ?_, ?_, hlog, hdiag, ?_⟩
    · intro i hi
      show dataAt ((attrSetLoop (g.heap.length + 1) none g.head g).2.heap ++ _) i
        = dataAt g.heap i
      unfold dataAt
      rw [List.getElem?_append_left (by rw [hlen]; exact hi)]
      have hd := hdata i
      unfold dataAt at hd
      exact hd
    · show dataAt ((attrSetLoop (g.heap.length + 1) none g.head g).2.heap ++ _)
        g.heap.length = _
      unfold dataAt
      rw [getElem?_concat_eq _ _ _ hlen]
      rfl
    · rw [hK]
      show Walks _ (some (attrSetLoop (g.heap.length + 1) none g.head g).2.heap.length)
        ([] ++ [g.heap.length])
      rw [hlen]
      refine @Walks.cons _ g.heap.length ⟨lv, ATTRIBUTE, false, false, none⟩ [] ?_ Walks.nil
      exact getElem?_concat_eq _ _ _ hlen
  | some p =>
    rw [hpr] at hreach
    have hlen2 : (setNext (attrSetLoop (g.heap.length + 1) none g.head g).2.heap p
        (some (attrSetLoop (g.heap.length + 1) none g.head g).2.heap.length)).length =
        (attrSetLoop (g.heap.length + 1) none g.head g).2.heap.length :=
      setNext_length _ _ _
    refine ⟨?_, ?_, ?_, hlog, hdiag, ?_⟩
    · show (setNext _ p _ ++ _).length = _
      rw [List.length_append, hlen2, hlen]
      rfl
    · intro i hi
      show dataAt (setNext _ p _ ++ _) i = dataAt g.heap i
      unfold dataAt
      rw [List.getElem?_append_left (by rw [hlen2, hlen]; exact hi)]
      have hds := dataAt_setNext (attrSetLoop (g.heap.length + 1) none g.head g).2.heap
        p (some (attrSetLoop (g.heap.length + 1) none g.head g).2.heap.length) i
      unfold dataAt at hds
      rw [hds]
      have hd := hdata i
      unfold dataAt at hd
      exact hd
    · show dataAt (setNext _ p _ ++ _) g.heap.length = _
      unfold dataAt
      rw [getElem?_concat_eq _ _ _ (hlen2.trans hlen)]
      rfl
    · have hr2 := hreach.setNext_last
        (some (attrSetLoop (g.heap.length + 1) none g.head g).2.heap.length)
        (by simpa using hKnd)
      have hr3 := hr2.frame_append [(⟨lv, ATTRIBUTE, false, false, none⟩ : ListenerNode)]
      have hwk := hr3.compose_walks
        (@Walks.cons _ (attrSetLoop (g.heap.length + 1) none g.head g).2.heap.length
          ⟨lv, ATTRIBUTE, false, false, none⟩ []
          (getElem?_concat_eq _ _ _ hlen2) Walks.nil)
      have hidx : (([] : List Nat) ++ List.filter (fun i => !isAttrAt g.heap i) ids)
          ++ [(attrSetLoop (g.heap.length + 1) none g.head g).2.heap.length] =
          List.filter (fun i => !isAttrAt g.heap i) ids ++ [g.heap.length] := by
        rw [hlen]
        simp
      rw [hidx] at hwk
      exact hwk

theorem mem_of_map_eq {α β : Type} {f : α → Option β} :
    ∀ {xs : List α} {ys : List β}, xs.map f = ys.map some →
      ∀ x ∈ xs, ∃ y ∈ ys, f x = some y := by
  intro xs
  induction xs with
  | nil => intro ys _ x hx; cases hx
  | cons a as ih =>
    intro ys h x hx
    cases ys with
    | nil => simp at h
    | cons b bs =>
      simp only [List.map_cons, List.cons.injEq] at h
      rcases List.mem_cons.mp hx with rfl | hx
      · exact ⟨b, List.mem_cons_self _ _, h.1⟩
      · obtain ⟨y, hy, he⟩ := ih h.2 x hx
        exact ⟨y, List.mem_cons_of_mem _ hy, he⟩

theorem matchesAt_of_dataAt {heap : List ListenerNode} {i a b : Nat}
    {c d : Bool} (h : dataAt heap i = some (a, b, c, d)) (l lt : Nat) :
    matchesAt heap i l lt = (a == l && b == lt) := by
  unfold dataAt at h
  unfold matchesAt
  cases hh : heap[i]? with
  | none => rw [hh] at h; exact absurd h (by simp)
  | some n =>
    rw [hh] at h
    simp at h
    show (n.listener == l && n.listenerType == lt) = (a == l && b == lt)
    rw [h.1, h.2.1]

theorem isAttrAt_of_dataAt {heap1 heap2 : List ListenerNode} {i : Nat}
    (h : dataAt heap1 i = dataAt heap2 i) :
    isAttrAt heap1 i = isAttrAt heap2 i := by
  unfold isAttrAt
  rw [typeAt_of_dataAt h]

theorem isAttrAt_eq_of_dataAt {heap : List ListenerNode} {i a b : Nat}
    {c d : Bool} (h : dataAt heap i = some (a, b, c, d)) :
    isAttrAt heap i = (b == ATTRIBUTE) := by
  unfold dataAt at h
  unfold isAttrAt typeAt
  cases hh : heap[i]? with
  | none => rw [hh] at h; exact absurd h (by simp)
  | some n =>
    rw [hh] at h
    simp at h
    simp [h.2.1]

theorem countNode_append (l1 l2 : List CallRecord) (o : Nat) :
    countNode (l1 ++ l2) o = countNode l1 o + countNode l2 o := by
  unfold countNode
  rw [List.filter_append, List.length_append]

theorem countNode_eq_count (l : List CallRecord) (o : Nat) :
    countNode l o = List.count o (l.map fun r => r.node) := by
  unfold countNode
  rw [List.count, List.countP_map]
  rw [List.countP_eq_length_filter]
  rfl

theorem map_node_of_map_pair {F : Nat → Nat} :
    ∀ {ext : List CallRecord} {ids : List Nat},
      ext.map (fun r => (r.node, r.listener)) = ids.map (fun i => (i, F i)) →
      ext.map (fun r => r.node) = ids := by
  intro ext
  induction ext with
  | nil =>
    intro ids h
    cases ids with
    | nil => rfl
    | cons i is => simp at h
  | cons r rs ih =>
    intro ids h
    cases ids with
    | nil => simp at h
    | cons i is =>
      simp only [List.map_cons, List.cons.injEq, Prod.mk.injEq] at h
      simp only [List.map_cons]
      rw [h.1.1, ih h.2]

/-- One dispatch step of the at-most-once invariant for a `once`
registration `o`: either `o` is still in the chain and has never been
invoked, or it is out of the chain and was invoked at most once. -/
theorem dispatch_once_step (env : Env) (hs : ∀ l, env.shape l = Shape.func)
    (hnr : ∀ l, Action.redispatch ∉ env.beh l)
    {f : Nat} {cb : Bool} {g : DState} {ids : List Nat} {o : Nat}
    {out : Except Unit Bool × Option PrivateData × DState}
    (hw : Walks g.heap g.head ids) (hnd : ids.Nodup)
    (ho : onceAt g.heap o = true)
    (hP : (o ∈ ids ∧ countNode g.log o = 0) ∨ (o ∉ ids ∧ countNode g.log o ≤ 1))
    (h : dispatchEvent env f cb g = some out) :
    ∃ ids2 : List Nat,
      Walks out.2.2.heap out.2.2.head ids2 ∧ ids2.Nodup ∧
      onceAt out.2.2.heap o = true ∧
      ((o ∈ ids2 ∧ countNode out.2.2.log o = 0) ∨
        (o ∉ ids2 ∧ countNode out.2.2.log o ≤ 1)) := by
  obtain ⟨-, hdata, -, ⟨ext, hlog, hmap, -⟩, hwalk⟩ :=
    dispatchEvent_char env hs hnr hw hnd h
  have hnode : ext.map (fun r => r.node) = invokedPart env g.heap ids :=
    map_node_of_map_pair hmap
  have hsub : List.Sublist (invokedPart env g.heap ids) ids :=
    invokedPart_sublist env g.heap ids
  have hIPnd : (invokedPart env g.heap ids).Nodup := hsub.nodup hnd
  have hcount : countNode out.2.2.log o =
      countNode g.log o + List.count o (invokedPart env g.heap ids) := by
    rw [hlog, countNode_append, countNode_eq_count ext o, hnode]
  have hsplit : invokedPart env g.heap ids ++
      ids.drop (invokedPart env g.heap ids).length = ids :=
    invokedPart_append_drop env g.heap ids
  have hsub2 : List.Sublist
      (((invokedPart env g.heap ids).filter fun i => !(onceAt g.heap i))
        ++ ids.drop (invokedPart env g.heap ids).length) ids := by
    have hfs : List.Sublist
        ((invokedPart env g.heap ids).filter fun i => !(onceAt g.heap i))
        (invokedPart env g.heap ids) := List.filter_sublist _
    have h1 := List.Sublist.append hfs
      (List.Sublist.refl (ids.drop (invokedPart env g.heap ids).length))
    rw [hsplit] at h1
    exact h1
  refine ⟨_, hwalk, hsub2.nodup hnd, ?_, ?_⟩
  · rw [onceAt_of_dataAt (hdata o)]
    exact ho
  · rcases hP with ⟨hmem, hc0⟩ | ⟨hnm, hc1⟩
    · by_cases hoIP : o ∈ invokedPart env g.heap ids
      · refine Or.inr ⟨?_, ?_⟩
        · intro hmem2
          rcases List.mem_append.mp hmem2 with hc | hc
          · have := (List.mem_filter.mp hc).2
            rw [ho] at this
            exact absurd this (by simp)
          · have hnd3 : (invokedPart env g.heap ids ++
                ids.drop (invokedPart env g.heap ids).length).Nodup := by
              rw [hsplit]; exact hnd
            exact (List.nodup_append.mp hnd3).2.2 hoIP hc
        · have hle := List.nodup_iff_count_le_one.mp hIPnd o
          rw [hcount, hc0]
          omega
      · refine Or.inl ⟨?_, ?_⟩
        · have : o ∈ invokedPart env g.heap ids ++
              ids.drop (invokedPart env g.heap ids).length := by
            rw [hsplit]; exact hmem
          rcases List.mem_append.mp this with hc | hc
          · exact absurd hc hoIP
          · exact List.mem_append_right _ hc
        · rw [hcount, hc0, List.count_eq_zero.mpr hoIP]
    · have hoIP : o ∉ invokedPart env g.heap ids := fun hc => hnm (hsub.subset hc)
      refine Or.inr ⟨fun hc => hnm (hsub2.subset hc), ?_⟩
      rw [hcount, List.count_eq_zero.mpr hoIP]
      omega

/-- The at-most-once invariant holds across any number of successive
dispatches. -/
theorem dispatchN_once_count (env : Env) (hs : ∀ l, env.shape l = Shape.func)
    (hnr : ∀ l, Action.redispatch ∉ env.beh l) :
    ∀ (k : Nat) {f : Nat} {cb : Bool} {g gN : DState} {ids : List Nat} {o : Nat},
      Walks g.heap g.head ids → ids.Nodup → onceAt g.heap o = true →
      ((o ∈ ids ∧ countNode g.log o = 0) ∨ (o ∉ ids ∧ countNode g.log o ≤ 1)) →
      dispatchN env f cb k g = some gN →
      countNode gN.log o ≤ 1 := by
  intro k
  induction k with
  | zero =>
    intro f cb g gN ids o _ _ _ hP h
    unfold dispatchN at h
    injection h with h
    subst h
    rcases hP with ⟨_, hc⟩ | ⟨_, hc⟩
    · omega
    · exact hc
  | succ k ih =>
    intro f cb g gN ids o hw hnd ho hP h
    unfold dispatchN at h
    cases hd : dispatchEvent env f cb g with
    | none => rw [hd] at h; exact absurd h (by simp)
    | some out =>
      rw [hd] at h
      obtain ⟨e, pdo, g2⟩ := out
      obtain ⟨ids2, hw2, hnd2, ho2, hP2⟩ :=
        dispatch_once_step env hs hnr hw hnd ho hP hd
      exact ih hw2 hnd2 ho2 hP2 h

theorem runAdds_cons (g : DState) (o : AddOp) (rest : List AddOp) :
    runAdds g (o :: rest) =
      runAdds (addEventListener g o.listener o.capture o.passive o.once) rest := rfl

theorem runOps_add_cons (g : DState) (l : Nat) (c p o : Bool) (rest : List TOp) :
    runOps g (TOp.add l c p o :: rest) = runOps (addEventListener g l c p o) rest := rfl

theorem runOps_setAttr_cons (g : DState) (lo : Option Nat) (rest : List TOp) :
    runOps g (TOp.setAttr lo :: rest) = runOps (attributeSetter g lo) rest := rfl

/-- Running a sequence of `addEventListener` calls whose (callback,
capture) pairs are pairwise distinct and collide with nothing already
registered appends one node per call, in call order. -/
theorem runAdds_char :
    ∀ (ops : List AddOp) (g : DState) (done : List (Nat × Nat × Bool × Bool))
      (ids : List Nat),
      Walks g.heap g.head ids → ids.Nodup →
      ids.map (fun i => dataAt g.heap i) = done.map some →
      (∀ o ∈ ops, ∀ d ∈ done,
        ¬(d.1 = o.listener ∧ d.2.1 = (if o.capture then CAPTURE else BUBBLE))) →
      List.Pairwise (fun a b : AddOp => a.listener ≠ b.listener ∨ a.capture ≠ b.capture)
        ops →
      ∃ ids2 : List Nat,
        Walks (runAdds g ops).heap (runAdds g ops).head ids2 ∧ ids2.Nodup ∧
        ids2.map (fun i => dataAt (runAdds g ops).heap i) =
          (done ++ ops.map specData).map some ∧
        (runAdds g ops).log = g.log ∧ (runAdds g ops).diag = g.diag := by
  intro ops
  induction ops with
  | nil =>
    intro g done ids hw hnd hm _ _
    exact ⟨ids, hw, hnd, by simpa using hm, rfl, rfl⟩
  | cons o rest ih =>
    intro g done ids hw hnd hm hcol hpw
    rw [runAdds_cons]
    have hno : ∀ i ∈ ids,
        matchesAt g.heap i o.listener (if o.capture then CAPTURE else BUBBLE) = false := by
      intro i hi
      obtain ⟨d, hd, he⟩ := mem_of_map_eq hm i hi
      obtain ⟨a, b, c, d4⟩ := d
      rw [matchesAt_of_dataAt he]
      have hcd := hcol o (List.mem_cons_self _ _) (a, b, c, d4) hd
      simp only [not_and] at hcd
      by_cases hab : a = o.listener
      · have hbb : ¬b = (if o.capture then CAPTURE else BUBBLE) := fun hb => hcd hab hb
        simp [hbb]
      · simp [hab]
    have happ := addEventListener_append hw hnd o.listener o.capture o.passive o.once hno
    obtain ⟨hlen, hdata, hnew, hlog, hdiag, hw2⟩ := happ
    have hvalid := hw.valid
    have hnd2 : (ids ++ [g.heap.length]).Nodup := by
      rw [List.nodup_append]
      refine ⟨hnd, List.nodup_singleton _, ?_⟩
      intro a ha hb
      rw [List.mem_singleton.mp hb] at ha
      exact absurd (hvalid _ ha) (lt_irrefl _)
    have hm2 : (ids ++ [g.heap.length]).map
        (fun i => dataAt (addEventListener g o.listener o.capture o.passive o.once).heap i) =
        (done ++ [specData o]).map some := by
      rw [List.map_append, List.map_append]
      refine congrArg₂ _ ?_ (by simp [hnew, specData])
      rw [← hm]
      exact List.map_congr_left fun i hi => hdata i (hvalid i hi)
    have hcol2 : ∀ o2 ∈ rest, ∀ d ∈ done ++ [specData o],
        ¬(d.1 = o2.listener ∧ d.2.1 = (if o2.capture then CAPTURE else BUBBLE)) := by
      intro o2 ho2 d hd hdd
      rcases List.mem_append.mp hd with hd | hd
      · exact hcol o2 (List.mem_cons_of_mem _ ho2) d hd hdd
      · rw [List.mem_singleton.mp hd] at hdd
        have hpair := (List.pairwise_cons.mp hpw).1 o2 ho2
        unfold specData at hdd
        rcases hpair with hne | hne
        · exact hne hdd.1
        · have := hdd.2
          cases hc1 : o.capture <;> cases hc2 : o2.capture <;>
            rw [hc1, hc2] at this <;> simp [CAPTURE, BUBBLE] at this <;>
            simp [hc1, hc2] at hne
    have hres := ih (addEventListener g o.listener o.capture o.passive o.once)
      (done ++ [specData o]) (ids ++ [g.heap.length]) hw2 hnd2 hm2 hcol2
      (List.pairwise_cons.mp hpw).2
    obtain ⟨ids2, ha, hb, hc, hd, he⟩ := hres
    refine ⟨ids2, ha, hb, ?_, by rw [hd, hlog], by rw [he, hdiag]⟩
    rw [hc]
    simp

/-- Registry invariant: any sequence of `addEventListener` calls and
event-attribute assignments, started on a chain holding at most one
ATTRIBUTE-mode node, leaves at most one ATTRIBUTE-mode node. -/
theorem runOps_inv :
    ∀ (ops : List TOp) (g : DState) (ids : List Nat),
      Walks g.heap g.head ids → ids.Nodup →
      attrCount g.heap ids ≤ 1 →
      ∃ ids2 : List Nat,
        Walks (runOps g ops).heap (runOps g ops).head ids2 ∧ ids2.Nodup ∧
        attrCount (runOps g ops).heap ids2 ≤ 1 := by
  intro ops
  induction ops with
  | nil => intro g ids hw hnd hc; exact ⟨ids, hw, hnd, hc⟩
  | cons op rest ih =>
    intro g ids hw hnd hc
    cases op with
    | add l c p o =>
      rw [runOps_add_cons]
      by_cases hdup : ∃ i ∈ ids, matchesAt g.heap i l (if c then CAPTURE else BUBBLE) = true
      · rw [addEventListener_dup hw hnd l c p o hdup]
        exact ih g ids hw hnd hc
      · push_neg at hdup
        have hno : ∀ i ∈ ids,
            matchesAt g.heap i l (if c then CAPTURE else BUBBLE) = false := by
          intro i hi
          have := hdup i hi
          simpa using this
        obtain ⟨hlen, hdata, hnew, hlog, hdiag, hw2⟩ :=
          addEventListener_append hw hnd l c p o hno
        have hvalid := hw.valid
        have hnd2 : (ids ++ [g.heap.length]).Nodup := by
          rw [List.nodup_append]
          refine ⟨hnd, List.nodup_singleton _, ?_⟩
          intro a ha hb
          rw [List.mem_singleton.mp hb] at ha
          exact absurd (hvalid _ ha) (lt_irrefl _)
        refine ih (addEventListener g l c p o) (ids ++ [g.heap.length]) hw2 hnd2 ?_
        unfold attrCount
        rw [List.filter_append, List.length_append]
        have hf1 : (ids.filter fun i =>
            isAttrAt (addEventListener g l c p o).heap i) =
            ids.filter fun i => isAttrAt g.heap i :=
          List.filter_congr fun i hi => isAttrAt_of_dataAt (hdata i (hvalid i hi))
        have hf2 : (([g.heap.length] : List Nat).filter fun i =>
            isAttrAt (addEventListener g l c p o).heap i) = [] := by
          rw [List.filter_singleton]
          rw [isAttrAt_eq_of_dataAt hnew]
          cases c <;> simp [CAPTURE, BUBBLE, ATTRIBUTE]
        rw [hf1, hf2]
        simpa [attrCount] using hc
    | setAttr lo =>
      rw [runOps_setAttr_cons]
      cases lo with
      | none =>
        obtain ⟨hdata, hlen, hlog, hdiag, hw2⟩ := attributeSetter_none_char hw hnd
        refine ih (attributeSetter g none) _ hw2
          ((List.filter_sublist ids).nodup hnd) ?_
        unfold attrCount
        have hf : ((ids.filter fun i => !(isAttrAt g.heap i)).filter fun i =>
            isAttrAt (attributeSetter g none).heap i) = [] := by
          rw [List.filter_filter]
          rw [List.filter_eq_nil_iff]
          intro i hi
          rw [isAttrAt_of_dataAt (hdata i)]
          cases ha : isAttrAt g.heap i <;> simp [ha]
        rw [hf]
        simp
      | some lv =>
        obtain ⟨hlen, hdata, hnew, hlog, hdiag, hw2⟩ := attributeSetter_some_char hw hnd lv
        have hvalid := hw.valid
        have hKnd : ((ids.filter fun i => !(isAttrAt g.heap i)) ++ [g.heap.length]).Nodup := by
          rw [List.nodup_append]
          refine ⟨(List.filter_sublist ids).nodup hnd, List.nodup_singleton _, ?_⟩
          intro a ha hb
          rw [List.mem_singleton.mp hb] at ha
          exact absurd (hvalid _ ((List.filter_sublist ids).subset ha)) (lt_irrefl _)
        refine ih (attributeSetter g (some lv)) _ hw2 hKnd ?_
        unfold attrCount
        rw [List.filter_append, List.length_append]
        have hf1 : ((ids.filter fun i => !(isAttrAt g.heap i)).filter fun i =>
            isAttrAt (attributeSetter g (some lv)).heap i) = [] := by
          rw [List.filter_filter]
          rw [List.filter_eq_nil_iff]
          intro i hi
          rw [isAttrAt_of_dataAt (hdata i (hvalid i hi))]
          cases ha : isAttrAt g.heap i <;> simp [ha]
        have hf2 : (([g.heap.length] : List Nat).filter fun i =>
            isAttrAt (attributeSetter g (some lv)).heap i) = [g.heap.length] := by
          rw [List.filter_singleton]
          rw [isAttrAt_eq_of_dataAt hnew]
          simp
        rw [hf1, hf2]
        simp

theorem matchesAt_congr {heap1 heap2 : List ListenerNode} {i : Nat}
    (h : dataAt heap1 i = dataAt heap2 i) (l lt : Nat) :
    matchesAt heap1 i l lt = matchesAt heap2 i l lt := by
  unfold dataAt at h
  unfold matchesAt
  cases h1 : heap1[i]? with
  | none =>
    rw [h1] at h
    cases h2 : heap2[i]? with
    | none => rfl
    | some m => rw [h2] at h; simp at h
  | some n =>
    rw [h1] at h
    cases h2 : heap2[i]? with
    | none => rw [h2] at h; simp at h
    | some m =>
      rw [h2] at h
      simp at h
      show (n.listener == l && n.listenerType == lt) =
        (m.listener == l && m.listenerType == lt)
      rw [h.1, h.2.1]

theorem listenerAt_val_of_dataAt {heap : List ListenerNode} {i a b : Nat} {c d : Bool}
    (h : dataAt heap i = some (a, b, c, d)) : listenerAt heap i = a := by
  unfold dataAt at h
  unfold listenerAt
  cases hh : heap[i]? with
  | none => rw [hh] at h; exact absurd h (by simp)
  | some n =>
    rw [hh] at h
    simp at h
    simp [h.1]

theorem map_listener_of_map_pair {F : Nat → Nat} :
    ∀ {ext : List CallRecord} {ids : List Nat},
      ext.map (fun r => (r.node, r.listener)) = ids.map (fun i => (i, F i)) →
      ext.map (fun r => r.listener) = ids.map F := by
  intro ext
  induction ext with
  | nil =>
    intro ids h
    cases ids with
    | nil => rfl
    | cons i is => simp at h
  | cons r rs ih =>
    intro ids h
    cases ids with
    | nil => simp at h
    | cons i is =>
      simp only [List.map_cons, List.cons.injEq, Prod.mk.injEq] at h
      simp only [List.map_cons]
      rw [h.1.2, ih h.2]

theorem map_listenerAt_of_map_dataAt {heap : List ListenerNode} :
    ∀ {ids : List Nat} {ds : List (Nat × Nat × Bool × Bool)},
      ids.map (fun i => dataAt heap i) = ds.map some →
      ids.map (fun i => listenerAt heap i) = ds.map (fun d => d.1) := by
  intro ids
  induction ids with
  | nil =>
    intro ds h
    cases ds with
    | nil => rfl
    | cons d dt => simp at h
  | cons i it ih =>
    intro ds h
    cases ds with
    | nil => simp at h
    | cons d dt =>
      simp only [List.map_cons, List.cons.injEq] at h
      simp only [List.map_cons]
      obtain ⟨a, b, c, d4⟩ := d
      rw [listenerAt_val_of_dataAt h.1, ih h.2]

/-- C1: for every event dispatched via `dispatchEvent` on a target with
a wrapper constructed for it, `dispatchEvent` returns false iff the
wrapped event's canceled flag (`defaultPrevented`) is true at the end of
the walk (true on the no-listener fast path, where no wrapper exists);
and `preventDefault` can make the flag true only when the raw event is
cancelable: with `cancelable` false (or omitted, coerced to false) a
whole dispatch returns true whatever the listeners do, and a single
`setCancelFlag` call leaves the private data unchanged. -/
theorem claim_C1 :
    (∀ (env : Env) (f : Nat) (cb : Bool) (g : DState)
      (out : Except Unit Bool × Option PrivateData × DState) (r : Bool),
      dispatchEvent env f cb g = some out → out.1 = Except.ok r →
      r = (match out.2.1 with
           | some pd => !pd.canceled
           | none => true)) ∧
    (∀ (env : Env) (f : Nat) (g : DState)
      (out : Except Unit Bool × Option PrivateData × DState) (r : Bool),
      dispatchEvent env f false g = some out → out.1 = Except.ok r → r = true) ∧
    (∀ (pd : PrivateData) (g : DState), pd.cancelable = false →
      (setCancelFlag pd g).1 = pd) := by
  refine ⟨?_, ?_, ?_⟩
  · intro env f cb g out r h hok
    cases f with
    | zero => exact absurd h (by simp [dispatchEvent])
    | succ f =>
      unfold dispatchEvent at h
      split at h
      · injection h with h
        subst h
        injection hok with he
        subst he
        rfl
      · split at h
        · exact absurd h (by simp)
        · injection h with h
          subst h
          exact absurd hok (by simp)
        · injection h with h
          subst h
          injection hok with he
          subst he
          rfl
  · intro env f g out r h hok
    cases f with
    | zero => exact absurd h (by simp [dispatchEvent])
    | succ f =>
      unfold dispatchEvent at h
      split at h
      · injection h with h
        subst h
        injection hok with he
        exact he.symm
      · rename_i hd hh
        split at h
        · exact absurd h (by simp)
        · injection h with h
          subst h
          exact absurd hok (by simp)
        · rename_i pdo g2 hl
          injection h with h
          subst h
          injection hok with he
          have hC := dispatchLoop_cancel_inv env f none (some hd)
            (initPrivateData false) g (false, pdo, g2) hl
          have h2 : pdo.canceled = false := hC.2 rfl
          rw [← he]
          simp [h2]
  · intro pd g hc
    unfold setCancelFlag
    cases hp : pd.passiveListener with
    | some l => rfl
    | none => simp [hc]

theorem claim_C1_witness :
    (false : Bool) =
      (match (some (⟨true, true, false, false, none, 0, false⟩ : PrivateData) :
          Option PrivateData) with
       | some pd => !pd.canceled
       | none => true) :=
  claim_C1.1 envPrevent 5 true (addEventListener emptyTarget 0 false false false)
    (Except.ok false, some ⟨true, true, false, false, none, 0, false⟩,
      ⟨[⟨0, 2, false, false, none⟩], some 0, [⟨0, 0, [0]⟩], []⟩) false
    (by
      simp [dispatchEvent, dispatchLoop, invoke, runActions, addEventListener,
        addLoop, emptyTarget, envPrevent, initPrivateData, pushLog, pushErr,
        setCancelFlag, setCancelFlagPd, spliceOut, setNext, chainIds, walkFrom,
        BUBBLE])
    rfl

/-- C5: a `preventDefault` call on a wrapper sets the canceled flag only
when the raw event is cancelable and no passive listener is active; when
a passive listener is active the call only reports to the console,
changes nothing else (no exception is modelled because the source throws
nothing there), and leaves `defaultPrevented` as it was; and inside the
dispatch engine a `preventDefault` step is exactly a `setCancelFlag`
call. -/
theorem claim_C5 :
    (∀ (pd : PrivateData) (g : DState) (l : Nat), pd.passiveListener = some l →
      setCancelFlag pd g =
        (pd, { g with diag := g.diag ++ [Diag.passivePrevent l] })) ∧
    (∀ (pd : PrivateData) (g : DState),
      ((setCancelFlag pd g).1.canceled = true ↔
        (pd.canceled = true ∨
          (pd.cancelable = true ∧ pd.passiveListener = none)))) ∧
    (∀ (env : Env) (f : Nat) (rest : List Action) (pd : PrivateData) (g : DState),
      runActions env (f + 1) (Action.preventDefault :: rest) pd g =
        runActions env f rest (setCancelFlag pd g).1 (setCancelFlag pd g).2) := by
  refine ⟨?_, ?_, ?_⟩
  · intro pd g l hp
    unfold setCancelFlag
    rw [hp]
  · intro pd g
    rw [setCancelFlag_fst, setCancelFlagPd_canceled]
    cases hp : pd.passiveListener <;> cases hc : pd.cancelable <;>
      cases hd : pd.canceled <;> simp [hp, hc, hd]
  · intro env f rest pd g
    conv_lhs => unfold runActions

theorem claim_C5_witness :
    setCancelFlag ⟨true, false, false, false, some 9, 2, true⟩ emptyTarget =
      (⟨true, false, false, false, some 9, 2, true⟩,
        { emptyTarget with diag := emptyTarget.diag ++ [Diag.passivePrevent 9] }) :=
  claim_C5.1 ⟨true, false, false, false, some 9, 2, true⟩ emptyTarget 9 rfl

/-- C9: dispatching an event whose type has no registered listener chain
returns true immediately; the second result component is the wrapper's
private data and is `none` exactly because the wrap step is never
reached on this fast path, and the registry state is returned
untouched. -/
theorem claim_C9 (env : Env) (f : Nat) (cb : Bool) (g : DState)
    (h : g.head = none) :
    dispatchEvent env (f + 1) cb g = some (Except.ok true, none, g) := by
  unfold dispatchEvent
  rw [h]

theorem claim_C9_witness :
    dispatchEvent envNil 6 false emptyTarget = some (Except.ok true, none, emptyTarget) :=
  claim_C9 envNil 5 false emptyTarget rfl

/-- C10: `stopPropagation` sets the stopped flag but not
`immediateStopped`; a script with no `stopImmediatePropagation` call
never sets `immediateStopped` (the only flag the dispatch loop breaks
on); consequently a dispatch over listeners none of whose scripts set
`immediateStopped` — `stopPropagation` calls included — still invokes
every listener of the chain. -/
theorem claim_C10 :
    (∀ pd : PrivateData, (stopPropagation pd).stopped = true ∧
      (stopPropagation pd).immediateStopped = pd.immediateStopped ∧
      (stopPropagation pd).canceled = pd.canceled) ∧
    (∀ acts : List Action, Action.stopImmediatePropagation ∉ acts →
      scriptStops acts = false) ∧
    (∀ (env : Env) (g : DState) (ids : List Nat) (f : Nat) (cb : Bool)
      (out : Except Unit Bool × Option PrivateData × DState),
      (∀ l, env.shape l = Shape.func) →
      (∀ l, Action.redispatch ∉ env.beh l) →
      Walks g.heap g.head ids → ids.Nodup →
      (∀ i ∈ ids, stopsAt env g.heap i = false) →
      dispatchEvent env f cb g = some out →
      ∃ ext, out.2.2.log = g.log ++ ext ∧
        ext.map (fun r => r.node) = ids) := by
  refine ⟨fun pd => ⟨rfl, rfl, rfl⟩, ?_, ?_⟩
  · intro acts
    induction acts with
    | nil => intro _; rfl
    | cons a rest ih =>
      intro hm
      cases a with
      | stopImmediatePropagation => exact absurd (List.mem_cons_self _ _) hm
      | throwErr => rfl
      | preventDefault =>
        exact ih fun hr => hm (List.mem_cons_of_mem _ hr)
      | stopPropagation =>
        exact ih fun hr => hm (List.mem_cons_of_mem _ hr)
      | redispatch =>
        exact ih fun hr => hm (List.mem_cons_of_mem _ hr)
  · intro env g ids f cb out hs hnr hw hnd hns h
    obtain ⟨-, -, -, ⟨ext, hlog, hmap, -⟩, -⟩ := dispatchEvent_char env hs hnr hw hnd h
    refine ⟨ext, hlog, ?_⟩
    rw [map_node_of_map_pair hmap, invokedPart_no_stop env g.heap ids hns]

theorem claim_C10_witness :
    ∃ ext, ([⟨0, 0, [0, 1]⟩, ⟨1, 1, [0, 1]⟩] : List CallRecord) = gTwo.log ++ ext ∧
      ext.map (fun r => r.node) = [0, 1] :=
  claim_C10.2.2 envStopProp gTwo [0, 1] 20 true
    (Except.ok true, some ⟨true, false, true, false, none, 0, false⟩,
      ⟨[⟨0, 2, false, false, some 1⟩, ⟨1, 2, false, false, none⟩], some 0,
        [⟨0, 0, [0, 1]⟩, ⟨1, 1, [0, 1]⟩], []⟩)
    (fun _ => rfl)
    (by
      intro l
      show Action.redispatch ∉ (if l == 0 then [Action.stopPropagation] else [])
      split <;> simp)
    (@Walks.cons _ 0 ⟨0, 2, false, false, some 1⟩ [1] (by decide)
      (@Walks.cons _ 1 ⟨1, 2, false, false, none⟩ [] (by decide) Walks.nil))
    (by decide) (by decide)
    (by
      simp [dispatchEvent, dispatchLoop, invoke, runActions, gTwo,
        addEventListener, addLoop, emptyTarget, envStopProp, initPrivateData,
        pushLog, pushErr, stopPropagation, spliceOut, setNext, chainIds,
        walkFrom, BUBBLE])

/-- C2: after any sequence of successful `addEventListener` calls with
pairwise distinct (callback identity, capture flag) pairs on one target
and event name, a dispatch of that event type (over function-shaped,
non-re-entrant listeners whose scripts never set `immediateStopped`)
invokes each registered listener exactly once and in the order the
listeners were added, regardless of the capture flag of each
registration: the invocation log holds exactly one record per
registration, listing the callbacks in insertion order. -/
theorem claim_C2 (env : Env) (ops : List AddOp) (f : Nat) (cb : Bool)
    (out : Except Unit Bool × Option PrivateData × DState)
    (hpw : List.Pairwise
      (fun a b : AddOp => a.listener ≠ b.listener ∨ a.capture ≠ b.capture) ops)
    (hs : ∀ l, env.shape l = Shape.func)
    (hnr : ∀ l, Action.redispatch ∉ env.beh l)
    (hns : ∀ l, scriptStops (env.beh l) = false)
    (h : dispatchEvent env f cb (runAdds emptyTarget ops) = some out) :
    out.2.2.log.map (fun r => r.listener) = ops.map (fun o => o.listener) := by
  obtain ⟨ids2, hw2, hnd2, hdata2, hlog2, hdiag2⟩ :=
    runAdds_char ops emptyTarget [] [] Walks.nil List.nodup_nil rfl
      (fun o ho d hd => absurd hd (List.not_mem_nil d)) hpw
  obtain ⟨-, -, -, ⟨ext, hlog, hmap, -⟩, -⟩ :=
    dispatchEvent_char env hs hnr hw2 hnd2 h
  have hall : ∀ i ∈ ids2, stopsAt env (runAdds emptyTarget ops).heap i = false :=
    fun i _ => hns _
  rw [invokedPart_no_stop env _ ids2 hall] at hmap
  have h1 := map_listener_of_map_pair hmap
  rw [List.nil_append] at hdata2
  have h2 := map_listenerAt_of_map_dataAt hdata2
  have hnilL : emptyTarget.log = [] := rfl
  rw [hlog, hlog2, hnilL, List.nil_append, h1, h2, List.map_map]
  rfl

theorem claim_C2_witness :
    ([⟨0, 5, [0, 1]⟩, ⟨1, 7, [0, 1]⟩] : List CallRecord).map (fun r => r.listener) =
      ([⟨5, true, false, false⟩, ⟨7, false, false, false⟩] : List AddOp).map
        (fun o => o.listener) :=
  claim_C2 envNil [⟨5, true, false, false⟩, ⟨7, false, false, false⟩] 10 false
    (Except.ok true, some ⟨false, false, false, false, none, 0, false⟩,
      ⟨[⟨5, 1, false, false, some 1⟩, ⟨7, 2, false, false, none⟩], some 0,
        [⟨0, 5, [0, 1]⟩, ⟨1, 7, [0, 1]⟩], []⟩)
    (by decide) (fun _ => rfl) (fun _ => List.not_mem_nil _) (fun _ => rfl)
    (by
      simp [dispatchEvent, dispatchLoop, invoke, runActions, runAdds,
        addEventListener, addLoop, emptyTarget, envNil, initPrivateData,
        pushLog, pushErr, spliceOut, setNext, chainIds, walkFrom, CAPTURE,
        BUBBLE])

/-- C8: a second `addEventListener` call whose (callback identity,
computed mode) pair matches an existing registration is a no-op, even
when it passes different `passive` or `once` options: the registry state
is entirely unchanged, exactly one matching registration remains in the
chain, that registration keeps the first call's `passive` and `once`
flags, and every subsequent dispatch behaves exactly as if the second
call had never happened (so the listener is invoked once per
dispatch). -/
theorem claim_C8 (g : DState) (ids : List Nat) (l : Nat) (c p o p2 o2 : Bool)
    (hw : Walks g.heap g.head ids) (hnd : ids.Nodup)
    (hno : ∀ i ∈ ids, matchesAt g.heap i l (if c then CAPTURE else BUBBLE) = false) :
    addEventListener (addEventListener g l c p o) l c p2 o2 =
      addEventListener g l c p o ∧
    ((ids ++ [g.heap.length]).countP fun i =>
      matchesAt (addEventListener (addEventListener g l c p o) l c p2 o2).heap i l
        (if c then CAPTURE else BUBBLE)) = 1 ∧
    dataAt (addEventListener (addEventListener g l c p o) l c p2 o2).heap
      g.heap.length = some (l, if c then CAPTURE else BUBBLE, p, o) ∧
    ∀ (env : Env) (f : Nat) (cb : Bool)
      (out : Except Unit Bool × Option PrivateData × DState),
      dispatchEvent env f cb
          (addEventListener (addEventListener g l c p o) l c p2 o2) = some out →
      dispatchEvent env f cb (addEventListener g l c p o) = some out := by
  obtain ⟨hlen, hdata, hnew, hlog1, hdiag1, hw2⟩ :=
    addEventListener_append hw hnd l c p o hno
  have hvalid := hw.valid
  have hnd2 : (ids ++ [g.heap.length]).Nodup := by
    rw [List.nodup_append]
    refine ⟨hnd, List.nodup_singleton _, ?_⟩
    intro a ha hb
    rw [List.mem_singleton.mp hb] at ha
    exact absurd (hvalid _ ha) (lt_irrefl _)
  have hmtrue : matchesAt (addEventListener g l c p o).heap g.heap.length l
      (if c then CAPTURE else BUBBLE) = true := by
    rw [matchesAt_of_dataAt hnew]
    simp
  have hdup : addEventListener (addEventListener g l c p o) l c p2 o2 =
      addEventListener g l c p o :=
    addEventListener_dup hw2 hnd2 l c p2 o2
      ⟨g.heap.length, by simp, hmtrue⟩
  refine ⟨hdup, ?_, ?_, ?_⟩
  · rw [hdup, List.countP_append]
    have hz : (ids.countP fun i =>
        matchesAt (addEventListener g l c p o).heap i l
          (if c then CAPTURE else BUBBLE)) = 0 := by
      rw [List.countP_eq_zero]
      intro i hi
      rw [matchesAt_congr (hdata i (hvalid i hi)), hno i hi]
      simp
    rw [hz]
    simp [List.countP_cons, hmtrue]
  · rw [hdup]
    exact hnew
  · intro env f cb out h
    rw [hdup] at h
    exact h

theorem claim_C8_witness :
    addEventListener (addEventListener emptyTarget 4 false false false) 4 false
        true true =
      addEventListener emptyTarget 4 false false false ∧
    ((([] : List Nat) ++ [emptyTarget.heap.length]).countP fun i =>
      matchesAt (addEventListener (addEventListener emptyTarget 4 false false false)
          4 false true true).heap i 4 (if false then CAPTURE else BUBBLE)) = 1 ∧
    dataAt (addEventListener (addEventListener emptyTarget 4 false false false)
        4 false true true).heap emptyTarget.heap.length =
      some (4, if false then CAPTURE else BUBBLE, false, false) ∧
    ∀ (env : Env) (f : Nat) (cb : Bool)
      (out : Except Unit Bool × Option PrivateData × DState),
      dispatchEvent env f cb
          (addEventListener (addEventListener emptyTarget 4 false false false)
            4 false true true) = some out →
      dispatchEvent env f cb (addEventListener emptyTarget 4 false false false) =
        some out :=
  claim_C8 emptyTarget [] 4 false false false true true Walks.nil List.nodup_nil
    (fun i hi => absurd hi (List.not_mem_nil i))

/-- C3 counterexample: with both registrations `once` and callback 0
re-entering `dispatchEvent`, the inner dispatch invokes registration 1
and splices it out, yet the outer walk still advances through the stale
`next` pointer of the already-spliced node 0 and invokes registration 1
a second time: the final log holds two records for node 1, refuting
"invoked at most once in total across re-entrant dispatches". -/
theorem claim_C3_cex :
    onceAt gRedisp.heap 1 = true ∧
    dispatchEvent envRedisp 10 false gRedisp =
      some (Except.ok true, some ⟨false, false, false, false, none, 0, false⟩,
        ⟨[⟨0, 2, false, true, some 1⟩, ⟨1, 2, false, true, none⟩], none,
          [⟨0, 0, [1]⟩, ⟨1, 1, []⟩, ⟨1, 1, []⟩], []⟩) ∧
    countNode [⟨0, 0, [1]⟩, ⟨1, 1, []⟩, ⟨1, 1, []⟩] 1 = 2 := by
  refine ⟨by decide, ?_, by decide⟩
  simp [dispatchEvent, dispatchLoop, invoke, runActions, gRedisp,
    addEventListener, addLoop, emptyTarget, envRedisp, initPrivateData,
    pushLog, pushErr, spliceOut, setNext, chainIds, walkFrom, BUBBLE]

/-- C3 (amended): a `once` registration is spliced out of the chain
immediately before its invocation — the chain queried at that moment
does not contain it — and, provided no listener re-enters
`dispatchEvent` (the counterexample shows re-entrancy breaks this), a
`once` registration is invoked at most once in total across any number
of dispatches. -/
theorem claim_C3 (env : Env) (hs : ∀ l, env.shape l = Shape.func)
    (hnr : ∀ l, Action.redispatch ∉ env.beh l) :
    (∀ (f : Nat) (cb : Bool) (g : DState) (ids : List Nat)
       (out : Except Unit Bool × Option PrivateData × DState),
       Walks g.heap g.head ids → ids.Nodup →
       dispatchEvent env f cb g = some out →
       ∃ ext, out.2.2.log = g.log ++ ext ∧
         ∀ r ∈ ext, onceAt g.heap r.node = true → r.node ∉ r.chainBefore) ∧
    (∀ (k f : Nat) (cb : Bool) (g gN : DState) (ids : List Nat) (o : Nat),
       Walks g.heap g.head ids → ids.Nodup → onceAt g.heap o = true →
       g.log = [] → dispatchN env f cb k g = some gN →
       countNode gN.log o ≤ 1) := by
  constructor
  · intro f cb g ids out hw hnd h
    obtain ⟨-, -, -, ⟨ext, hlog, -, honce⟩, -⟩ :=
      dispatchEvent_char env hs hnr hw hnd h
    exact ⟨ext, hlog, honce⟩
  · intro k f cb g gN ids o hw hnd ho hlogE hdN
    have hc0 : countNode g.log o = 0 := by
      rw [hlogE]
      rfl
    refine dispatchN_once_count env hs hnr k hw hnd ho ?_ hdN
    by_cases hmem : o ∈ ids
    · exact Or.inl ⟨hmem, hc0⟩
    · exact Or.inr ⟨hmem, by rw [hc0]; exact Nat.zero_le 1⟩

theorem claim_C3_witness :
    countNode (DState.log ⟨[⟨0, 2, false, true, none⟩], none,
      [⟨0, 0, []⟩], []⟩) 0 ≤ 1 :=
  (claim_C3 envNil (fun _ => rfl) (fun _ => List.not_mem_nil _)).2
    2 10 false gOnce ⟨[⟨0, 2, false, true, none⟩], none, [⟨0, 0, []⟩], []⟩ [0] 0
    (@Walks.cons _ 0 ⟨0, 2, false, true, none⟩ [] (by decide) Walks.nil)
    (by decide) (by decide) rfl
    (by simp [dispatchN, dispatchEvent, dispatchLoop, invoke, runActions, gOnce,
      addEventListener, addLoop, emptyTarget, envNil, initPrivateData, pushLog,
      pushErr, spliceOut, setNext, chainIds, walkFrom, BUBBLE])

/-- C4: when the chain is `pre ++ k :: post`, none of the listeners of
`pre` sets `immediateStopped` and listener `k` does (it calls
`stopImmediatePropagation`), the dispatch invokes exactly `pre ++ [k]`
— no listener of `post` runs in that dispatch; and a later independent
`dispatchEvent` on any registry state whose listeners do not stop the
walk invokes every listener registered at that time. -/
theorem claim_C4 (env : Env) (hs : ∀ l, env.shape l = Shape.func)
    (hnr : ∀ l, Action.redispatch ∉ env.beh l)
    (f : Nat) (cb : Bool) (g : DState) (pre : List Nat) (k : Nat)
    (post : List Nat)
    (out : Except Unit Bool × Option PrivateData × DState)
    (hw : Walks g.heap g.head (pre ++ k :: post))
    (hnd : (pre ++ k :: post).Nodup)
    (hpre : ∀ i ∈ pre, stopsAt env g.heap i = false)
    (hk : stopsAt env g.heap k = true)
    (h : dispatchEvent env f cb g = some out) :
    (∃ ext, out.2.2.log = g.log ++ ext ∧
      ext.map (fun r => r.node) = pre ++ [k] ∧
      ∀ j ∈ post, j ∉ ext.map (fun r => r.node)) ∧
    ∀ (f2 : Nat) (cb2 : Bool) (g2 : DState) (ids2 : List Nat)
      (out2 : Except Unit Bool × Option PrivateData × DState),
      Walks g2.heap g2.head ids2 → ids2.Nodup →
      (∀ i ∈ ids2, stopsAt env g2.heap i = false) →
      dispatchEvent env f2 cb2 g2 = some out2 →
      ∃ ext2, out2.2.2.log = g2.log ++ ext2 ∧
        ext2.map (fun r => r.node) = ids2 := by
  constructor
  · obtain ⟨-, -, -, ⟨ext, hlog, hmap, -⟩, -⟩ :=
      dispatchEvent_char env hs hnr hw hnd h
    have hnode := map_node_of_map_pair hmap
    rw [invokedPart_first_stop env g.heap pre k post hpre hk] at hnode
    refine ⟨ext, hlog, hnode, ?_⟩
    intro j hj hmem
    rw [hnode] at hmem
    rw [List.nodup_append] at hnd
    rcases List.mem_append.mp hmem with hjp | hjk
    · exact hnd.2.2 hjp (List.mem_cons_of_mem k hj)
    · rw [List.mem_singleton.mp hjk] at hj
      exact (List.nodup_cons.mp hnd.2.1).1 hj
  · intro f2 cb2 g2 ids2 out2 hw2 hnd2 hns2 h2
    obtain ⟨-, -, -, ⟨ext2, hlog2, hmap2, -⟩, -⟩ :=
      dispatchEvent_char env hs hnr hw2 hnd2 h2
    have hnode2 := map_node_of_map_pair hmap2
    rw [invokedPart_no_stop env g2.heap ids2 hns2] at hnode2
    exact ⟨ext2, hlog2, hnode2⟩

theorem claim_C4_witness :
    ∃ ext, ([⟨0, 0, [0, 1, 2]⟩, ⟨1, 1, [0, 1, 2]⟩] : List CallRecord) =
        gThree.log ++ ext ∧
      ext.map (fun r => r.node) = [0] ++ [1] ∧
      ∀ j ∈ ([2] : List Nat), j ∉ ext.map (fun r => r.node) :=
  (claim_C4 envStopImm (fun _ => rfl)
    (by
      intro l
      show Action.redispatch ∉
        (if l == 1 then [Action.stopImmediatePropagation] else [])
      split <;> simp)
    10 false gThree [0] 1 [2]
    (Except.ok true, some ⟨false, false, true, true, none, 0, false⟩,
      ⟨[⟨0, 2, false, false, some 1⟩, ⟨1, 2, false, false, some 2⟩,
        ⟨2, 2, false, false, none⟩], some 0,
        [⟨0, 0, [0, 1, 2]⟩, ⟨1, 1, [0, 1, 2]⟩], []⟩)
    (@Walks.cons _ 0 ⟨0, 2, false, false, some 1⟩ [1, 2] (by decide)
      (@Walks.cons _ 1 ⟨1, 2, false, false, some 2⟩ [2] (by decide)
        (@Walks.cons _ 2 ⟨2, 2, false, false, none⟩ [] (by decide) Walks.nil)))
    (by decide) (by decide) (by decide)
    (by simp [dispatchEvent, dispatchLoop, invoke, runActions, gThree,
      addEventListener, addLoop, emptyTarget, envStopImm, initPrivateData,
      pushLog, pushErr, stopPropagation, stopImmediatePropagation, spliceOut,
      setNext, chainIds, walkFrom, BUBBLE])).1

/-- C6 counterexample: after `on = 10; addEventListener(20); on = 11`
the old ATTRIBUTE registration occupied the first chain position, but
the new one is appended at the end — behind the BUBBLE registration —
refuting "splices the new registration in at the chain position the old
one occupied". -/
theorem claim_C6_cex :
    chainData (addEventListener (attributeSetter emptyTarget (some 10)) 20
      false false false) =
      [(10, ATTRIBUTE, false, false), (20, BUBBLE, false, false)] ∧
    chainData gAttrSwap =
      [(20, BUBBLE, false, false), (11, ATTRIBUTE, false, false)] ∧
    chainData gAttrSwap ≠
      [(11, ATTRIBUTE, false, false), (20, BUBBLE, false, false)] := by
  decide

/-- C6 (amended): every sequence of `addEventListener` calls and event
attribute assignments keeps at most one ATTRIBUTE-mode registration in
the chain; assigning a new attribute handler removes every existing
ATTRIBUTE-mode entry, appends the fresh ATTRIBUTE registration at the
end of the chain (not at the position the old one occupied — see the
counterexample), and leaves the data of every other registration
untouched. -/
theorem claim_C6 :
    (∀ ops : List TOp, ∃ ids2 : List Nat,
      Walks (runOps emptyTarget ops).heap (runOps emptyTarget ops).head ids2 ∧
        ids2.Nodup ∧ attrCount (runOps emptyTarget ops).heap ids2 ≤ 1) ∧
    (∀ (g : DState) (ids : List Nat) (lv : Nat),
      Walks g.heap g.head ids → ids.Nodup →
      Walks (attributeSetter g (some lv)).heap
        (attributeSetter g (some lv)).head
        ((ids.filter fun i => !(isAttrAt g.heap i)) ++ [g.heap.length]) ∧
      dataAt (attributeSetter g (some lv)).heap g.heap.length =
        some (lv, ATTRIBUTE, false, false) ∧
      (∀ i, i < g.heap.length →
        dataAt (attributeSetter g (some lv)).heap i = dataAt g.heap i)) := by
  constructor
  · intro ops
    exact runOps_inv ops emptyTarget [] Walks.nil List.nodup_nil (by decide)
  · intro g ids lv hw hnd
    obtain ⟨hlen, hdata, hnew, hlog, hdiag, hwF⟩ :=
      attributeSetter_some_char hw hnd lv
    exact ⟨hwF, hnew, hdata⟩

theorem claim_C6_witness :
    Walks (attributeSetter gTwo (some 7)).heap
      (attributeSetter gTwo (some 7)).head
      ((([0, 1] : List Nat).filter fun i => !(isAttrAt gTwo.heap i)) ++
        [gTwo.heap.length]) ∧
    dataAt (attributeSetter gTwo (some 7)).heap gTwo.heap.length =
      some (7, ATTRIBUTE, false, false) ∧
    (∀ i, i < gTwo.heap.length →
      dataAt (attributeSetter gTwo (some 7)).heap i = dataAt gTwo.heap i) :=
  claim_C6.2 gTwo [0, 1] 7
    (@Walks.cons _ 0 ⟨0, 2, false, false, some 1⟩ [1] (by decide)
      (@Walks.cons _ 1 ⟨1, 2, false, false, none⟩ [] (by decide) Walks.nil))
    (by decide)

/-- C7 counterexample: an exception raised by the `handleEvent` method
of an object-shaped listener is not caught — the source wraps only the
function-shaped call in try/catch — so it propagates to the caller of
`dispatchEvent` (`Except.error`), nothing is reported to the diagnostic
channel, and the remaining listener of the chain (node 1) is never
invoked. -/
theorem claim_C7_cex :
    dispatchEvent envThrowObj 10 false gTwo =
      some (Except.error (), some ⟨false, false, false, false, none, 2, true⟩,
        ⟨[⟨0, 2, false, false, some 1⟩, ⟨1, 2, false, false, none⟩], some 0,
          [⟨0, 0, [0, 1]⟩], []⟩) ∧
    countNode [⟨0, 0, [0, 1]⟩] 1 = 0 := by
  refine ⟨?_, by decide⟩
  simp [dispatchEvent, dispatchLoop, invoke, runActions, gTwo, addEventListener,
    addLoop, emptyTarget, envThrowObj, initPrivateData, pushLog, pushErr,
    spliceOut, setNext, chainIds, walkFrom, BUBBLE, ATTRIBUTE]

/-- C7 (amended): for function-shaped listeners (the only ones the
source invokes inside try/catch) an exception raised by a listener is
reported to the diagnostic channel and never propagates to the caller of
`dispatchEvent` — the result is `Except.ok` — and, when no listener
stops the walk, every listener of the chain is still invoked; the
counterexample shows the claim fails for object-shaped listeners with a
`handleEvent` method. -/
theorem claim_C7 (env : Env) (hs : ∀ l, env.shape l = Shape.func)
    (hnr : ∀ l, Action.redispatch ∉ env.beh l)
    (hns : ∀ l, scriptStops (env.beh l) = false)
    {f : Nat} {cb : Bool} {g : DState} {ids : List Nat}
    {out : Except Unit Bool × Option PrivateData × DState}
    (hw : Walks g.heap g.head ids) (hnd : ids.Nodup)
    (h : dispatchEvent env f cb g = some out) :
    (∃ r, out.1 = Except.ok r) ∧
    (∃ ds, out.2.2.diag = g.diag ++ ds) ∧
    (∃ ext, out.2.2.log = g.log ++ ext ∧ ext.map (fun r => r.node) = ids) := by
  obtain ⟨hok, -, hdiag, ⟨ext, hlog, hmap, -⟩, -⟩ :=
    dispatchEvent_char env hs hnr hw hnd h
  have hnode := map_node_of_map_pair hmap
  rw [invokedPart_no_stop env g.heap ids
    (fun i _ => hns (listenerAt g.heap i))] at hnode
  exact ⟨hok, hdiag, ext, hlog, hnode⟩

theorem claim_C7_witness :
    (∃ r, (Except.ok true : Except Unit Bool) = Except.ok r) ∧
    (∃ ds, ([Diag.listenerError] : List Diag) = gTwo.diag ++ ds) ∧
    (∃ ext, ([⟨0, 0, [0, 1]⟩, ⟨1, 1, [0, 1]⟩] : List CallRecord) =
      gTwo.log ++ ext ∧ ext.map (fun r => r.node) = [0, 1]) :=
  @claim_C7 envThrowFunc (fun _ => rfl)
    (by
      intro l
      show Action.redispatch ∉ (if l == 0 then [Action.throwErr] else [])
      split <;> simp)
    (by
      intro l
      show scriptStops (if l == 0 then [Action.throwErr] else []) = false
      split <;> rfl)
    10 false gTwo [0, 1]
    (Except.ok true, some ⟨false, false, false, false, none, 0, false⟩,
      ⟨[⟨0, 2, false, false, some 1⟩, ⟨1, 2, false, false, none⟩], some 0,
        [⟨0, 0, [0, 1]⟩, ⟨1, 1, [0, 1]⟩], [Diag.listenerError]⟩)
    (@Walks.cons _ 0 ⟨0, 2, false, false, some 1⟩ [1] (by decide)
      (@Walks.cons _ 1 ⟨1, 2, false, false, none⟩ [] (by decide) Walks.nil))
    (by decide)
    (by simp [dispatchEvent, dispatchLoop, invoke, runActions, gTwo,
      addEventListener, addLoop, emptyTarget, envThrowFunc, initPrivateData,
      pushLog, pushErr, spliceOut, setNext, chainIds, walkFrom, BUBBLE])

end EventShim
